import Mathlib

/-!
# Verification of the Claudette API client and text-editor tool

Shallow embedding of the parts of the Claudette Sublime Text plugin that the
specification's claims are about:

* `src/tools/text_editor.py` — path sandboxing (`resolve_path`,
  `ensure_under_root`) and the four text-editor tool operations
  (`execute_view`, `execute_str_replace`, `execute_create`, `execute_insert`)
  together with the dispatcher `run_text_editor_tool`;
* `src/api/api.py` — `get_valid_temperature`, `calculate_cost`, the request
  bodies built by `stream_response` / `_request_non_streaming`, and the
  tool-use branch of `run_with_text_editor_loop`;
* `src/api/handler.py` — the streaming response handler
  (`append_chunk`, `get_thinking_blocks`, `get_response_content`).

Python-level conventions used by the embedding:

* file contents are `String`s and the filesystem is an explicit association
  list (`PyFS`); OS-level I/O errors (`OSError`) are outside the model, so
  reads and writes of existing, in-model paths always succeed;
* dynamically typed Python values that flow out of the tool-use JSON are
  modelled by the inductive `PyVal`; Python exceptions raised by conversions
  such as `int(...)` are modelled with `Except String`, where the string names
  the Python exception class;
* `os.path.normpath`, `os.path.commonpath`, `os.path.dirname`,
  `os.path.basename` and `os.path.join` are embedded with their POSIX
  (`posixpath`) semantics, following the CPython implementations;
* `str.strip` / `float(...)` / `int(...)` are embedded for ASCII text; the
  float parser covers sign, decimal digits, an optional fractional part and an
  optional exponent (Python additionally accepts underscores, `inf` and `nan`,
  which this model maps to a failed parse — such inputs are out of `[0, 1]` or
  non-finite in Python, so the functions under verification agree on them).
-/

namespace Claudette

/-! ## Basic string utilities (embeddings of Python `str` operations) -/

/-- Python whitespace characters stripped by `str.strip()` (ASCII subset). -/
def pyIsSpace (c : Char) : Bool :=
  c = ' ' || c = '\t' || c = '\n' || c = '\r' || c = Char.ofNat 11 || c = Char.ofNat 12

/-- Embedding of Python `str.strip()` (ASCII whitespace). -/
def pyStrip (s : String) : String :=
  String.mk (((s.data.dropWhile pyIsSpace).reverse.dropWhile pyIsSpace).reverse)

/-- `pre` is a prefix of `s` (Python `str.startswith`). -/
def strStartsWith (s pre : String) : Bool :=
  pre.data.isPrefixOf s.data

/-- `suf` is a suffix of `s` (Python `str.endswith`). -/
def strEndsWith (s suf : String) : Bool :=
  suf.data.reverse.isPrefixOf s.data.reverse

/-- `pat` occurs as a contiguous sublist of `s`. -/
def listInfixOf (pat : List Char) : List Char → Bool
  | [] => pat.isEmpty
  | c :: rest => pat.isPrefixOf (c :: rest) || listInfixOf pat rest

/-- Embedding of Python `pat in s` substring test. -/
def strContains (s pat : String) : Bool :=
  listInfixOf pat.data s.data

/-- Lowercase a string (Python `str.lower()`, ASCII). -/
def pyLower (s : String) : String :=
  String.mk (s.data.map Char.toLower)

/-- Concatenate a list of strings (Python `"".join`). -/
def strConcat : List String → String
  | [] => ""
  | s :: rest => s ++ strConcat rest

/-- Join strings with `"/"` (Python `"/".join`). -/
def joinWithSlash : List String → String
  | [] => ""
  | [s] => s
  | s :: rest => s ++ "/" ++ joinWithSlash rest

/-- Join strings with newlines (Python `"\n".join`). -/
def joinNL : List String → String
  | [] => ""
  | [s] => s
  | s :: rest => s ++ "\n" ++ joinNL rest

/-- Split a character list at `'/'` (Python `path.split('/')`,
including empty pieces). -/
def splitSlash : List Char → List (List Char)
  | [] => [[]]
  | c :: rest =>
    if c = '/' then [] :: splitSlash rest
    else
      match splitSlash rest with
      | p :: ps => (c :: p) :: ps
      | [] => [[c]]

/-- Split a character list at `'\n'` (pieces, excluding the separators). -/
def splitNLChars : List Char → List (List Char)
  | [] => [[]]
  | c :: rest =>
    if c = '\n' then [] :: splitNLChars rest
    else
      match splitNLChars rest with
      | p :: ps => (c :: p) :: ps
      | [] => [[c]]

/-- Embedding of Python `str.splitlines()` restricted to `'\n'` line
terminators (the file contents handled by the tool are utf-8 text read in
text mode). -/
def pySplitlines (s : String) : List String :=
  if s = "" then []
  else
    let parts := (splitNLChars s.data).map String.mk
    if strEndsWith s "\n" then parts.dropLast else parts

/-- Embedding of Python `file.readlines()`: split after each `'\n'`,
keeping the terminator on each line. -/
def readlinesAux : List Char → List Char → List String
  | [], acc => if acc.isEmpty then [] else [String.mk acc.reverse]
  | c :: rest, acc =>
    if c = '\n' then String.mk (acc.reverse ++ ['\n']) :: readlinesAux rest []
    else readlinesAux rest (c :: acc)

/-- All physical lines of `s`, each keeping its trailing newline. -/
def pyReadlines (s : String) : List String :=
  readlinesAux s.data []

/-- Count of non-overlapping occurrences of `pat` in `s`, scanning left to
right (Python `str.count`); the empty pattern occurs `len(s) + 1` times. -/
def countOccAux (pat : List Char) : Nat → List Char → Nat
  | 0, _ => 0
  | _ + 1, [] => if pat.isEmpty then 1 else 0
  | fuel + 1, c :: rest =>
    if pat.isPrefixOf (c :: rest) then
      1 + countOccAux pat fuel ((c :: rest).drop pat.length)
    else
      countOccAux pat fuel rest

/-- Python `content.count(old)` (non-overlapping occurrences). -/
def countOcc (s pat : List Char) : Nat :=
  if pat.isEmpty then s.length + 1 else countOccAux pat (s.length + 1) s

/-- Replace the leftmost occurrence of `old` in `s` by `new`
(Python `str.replace(old, new, 1)`); no occurrence leaves `s` unchanged. -/
def replaceOnce (s old new : List Char) : List Char :=
  match s with
  | [] => if old.isEmpty then new else []
  | c :: rest =>
    if old.isPrefixOf (c :: rest) then new ++ (c :: rest).drop old.length
    else c :: replaceOnce rest old new

/-- Insertion into a `≤`-sorted list of strings (code-point order, as Python
`sorted`). -/
def insertSorted (s : String) : List String → List String
  | [] => [s]
  | t :: rest => if s ≤ t then s :: t :: rest else t :: insertSorted s rest

/-- Embedding of Python `sorted` on strings. -/
def sortStrings : List String → List String
  | [] => []
  | s :: rest => insertSorted s (sortStrings rest)

/-! ## POSIX path functions (embeddings of CPython `posixpath`) -/

/-- Embedding of `os.path.dirname` (POSIX): everything up to the last `'/'`,
with trailing slashes stripped unless the head is all slashes. -/
def pyDirname (p : String) : String :=
  let head := (p.data.reverse.dropWhile (fun c => c ≠ '/')).reverse
  if head.isEmpty then ""
  else if head.all (fun c => c = '/') then String.mk head
  else String.mk (head.reverse.dropWhile (fun c => c = '/')).reverse

/-- Embedding of `os.path.basename` (POSIX): everything after the last `'/'`. -/
def pyBasename (p : String) : String :=
  String.mk (p.data.reverse.takeWhile (fun c => c ≠ '/')).reverse

/-- Component loop of CPython `posixpath.normpath`: drop `''` and `'.'`,
resolve `'..'` against the accumulator (kept in reverse order). -/
def normpathFold (initialSlashes : Bool) : List String → List String → List String
  | [], acc => acc.reverse
  | comp :: rest, acc =>
    if comp = "" || comp = "." then normpathFold initialSlashes rest acc
    else if comp ≠ ".." || (!initialSlashes && acc.isEmpty) || acc.head? = some ".." then
      normpathFold initialSlashes rest (comp :: acc)
    else if !acc.isEmpty then normpathFold initialSlashes rest acc.tail
    else normpathFold initialSlashes rest acc

/-- Embedding of `os.path.normpath` (POSIX), following CPython: preserve one
or exactly two leading slashes, drop `''`/`'.'` components, resolve `'..'`
(a leading `'..'` survives only for relative paths), empty result is `"."`. -/
def pyNormpath (p : String) : String :=
  if p = "" then "."
  else
    let slashes : Nat :=
      if strStartsWith p "//" && !strStartsWith p "///" then 2
      else if strStartsWith p "/" then 1 else 0
    let comps := (splitSlash p.data).map String.mk
    let newComps := normpathFold (slashes ≠ 0) comps []
    let res := String.mk (List.replicate slashes '/') ++ joinWithSlash newComps
    if res = "" then "." else res

/-- The filtered path components used by `posixpath.commonpath`:
split at `'/'`, dropping `''` and `'.'`. -/
def filteredComps (p : String) : List String :=
  ((splitSlash p.data).map String.mk).filter (fun c => c ≠ "" && c ≠ ".")

/-- Longest common prefix of two component lists. -/
def lcpComps : List String → List String → List String
  | x :: xs, y :: ys => if x = y then x :: lcpComps xs ys else []
  | _, _ => []

/-- Embedding of `os.path.commonpath([a, b])` (POSIX). `Option.none` models
the `ValueError` CPython raises when mixing absolute and relative paths. -/
def pyCommonpath2 (a b : String) : Option String :=
  let aAbs := strStartsWith a "/"
  let bAbs := strStartsWith b "/"
  if aAbs = bAbs then
    some ((if aAbs then "/" else "") ++ joinWithSlash (lcpComps (filteredComps a) (filteredComps b)))
  else Option.none

/-- Embedding of `os.path.join(a, b)` (POSIX) for two arguments. -/
def pyJoin (a b : String) : String :=
  if strStartsWith b "/" then b
  else if a = "" || strEndsWith a "/" then a ++ b
  else a ++ "/" ++ b

/-! ## Python dynamic values and the in-model filesystem -/

/-- A dynamically typed Python value, as found in the tool-use `input` JSON. -/
inductive PyVal where
  | none
  | bool (b : Bool)
  | int (n : Int)
  | float (q : ℚ)
  | str (s : String)
  | list (xs : List PyVal)

/-- Python truthiness (`bool(v)`). -/
def pyTruthy : PyVal → Bool
  | PyVal.none => false
  | PyVal.bool b => b
  | PyVal.int n => n ≠ 0
  | PyVal.float q => q ≠ 0
  | PyVal.str s => s ≠ ""
  | PyVal.list xs => !xs.isEmpty

/-- `v == s` for a Python value against a string literal. -/
def pyEqStr (v : PyVal) (s : String) : Bool :=
  match v with
  | PyVal.str t => t = s
  | _ => false

/-- `v == n` for a Python value against an integer literal
(`bool` compares as `0`/`1`, numeric types compare numerically). -/
def pyEqInt (v : PyVal) (n : Int) : Bool :=
  match v with
  | PyVal.int m => m = n
  | PyVal.bool b => (if b then (1 : Int) else 0) = n
  | PyVal.float q => q = (n : ℚ)
  | _ => false

/-- `dict.get(k, default)` over an association-list dictionary. -/
def pyGet (params : List (String × PyVal)) (k : String) (default : PyVal) : PyVal :=
  match params.lookup k with
  | some v => v
  | Option.none => default

/-- Digits of a decimal literal, most significant first. -/
def digitsToNatAux : List Char → Nat → Option Nat
  | [], acc => some acc
  | c :: rest, acc =>
    if c.isDigit then digitsToNatAux rest (acc * 10 + (c.toNat - 48))
    else Option.none

/-- Parse a nonempty all-digit string. -/
def digitsToNat (cs : List Char) : Option Nat :=
  if cs.isEmpty then Option.none else digitsToNatAux cs 0

/-- Embedding of Python `int(s)` on a stripped string: optional sign then
decimal digits. -/
def parseIntStr (s : String) : Option Int :=
  match s.data with
  | '+' :: rest => (digitsToNat rest).map Int.ofNat
  | '-' :: rest => (digitsToNat rest).map (fun n => -(n : Int))
  | cs => (digitsToNat cs).map Int.ofNat

/-- Truncation toward zero (Python `int(float)`). -/
def ratTrunc (q : ℚ) : Int :=
  q.num / (q.den : Int)

/-- Embedding of Python `int(v)`. `Except.error` names the Python exception
(`ValueError` for unparsable strings, `TypeError` for non-numeric types). -/
def pyInt : PyVal → Except String Int
  | PyVal.int n => Except.ok n
  | PyVal.bool b => Except.ok (if b then 1 else 0)
  | PyVal.float q => Except.ok (ratTrunc q)
  | PyVal.str s =>
    match parseIntStr (pyStrip s) with
    | some n => Except.ok n
    | Option.none => Except.error "ValueError"
  | PyVal.none => Except.error "TypeError"
  | PyVal.list _ => Except.error "TypeError"

/-- Parse the digits of a float literal into a rational. -/
def parseFloatBody (ip fp : List Char) : Option ℚ :=
  match digitsToNat (ip ++ fp) with
  | some n => some ((n : ℚ) / (10 : ℚ) ^ fp.length)
  | Option.none => Option.none

/-- Embedding of Python `float(s)` on a stripped string: optional sign,
decimal digits with optional fractional part, optional exponent. -/
def parseFloatStr (s : String) : Option ℚ :=
  let withSign : List Char → Option ℚ := fun cs =>
    let ip := cs.takeWhile Char.isDigit
    let cs1 := cs.dropWhile Char.isDigit
    let fp := match cs1 with
      | '.' :: r => r.takeWhile Char.isDigit
      | _ => []
    let cs2 := match cs1 with
      | '.' :: r => r.dropWhile Char.isDigit
      | r => r
    if ip.isEmpty && fp.isEmpty then Option.none
    else
      match parseFloatBody ip fp with
      | Option.none => Option.none
      | some mant =>
        match cs2 with
        | [] => some mant
        | e :: r =>
          if e = 'e' || e = 'E' then
            let (epos, r2) : Bool × List Char := match r with
              | '+' :: r2 => (true, r2)
              | '-' :: r2 => (false, r2)
              | r2 => (true, r2)
            let ed := r2.takeWhile Char.isDigit
            let rest := r2.dropWhile Char.isDigit
            if ed.isEmpty || !rest.isEmpty then Option.none
            else
              match digitsToNat ed with
              | some n => some (if epos then mant * (10 : ℚ) ^ n else mant / (10 : ℚ) ^ n)
              | Option.none => Option.none
          else Option.none
  match s.data with
  | '+' :: rest => withSign rest
  | '-' :: rest => (withSign rest).map Neg.neg
  | cs => withSign cs

/-- Embedding of Python `float(v)`; `Option.none` models a raised
`TypeError`/`ValueError`. -/
def pyFloat : PyVal → Option ℚ
  | PyVal.none => Option.none
  | PyVal.bool b => some (if b then 1 else 0)
  | PyVal.int n => some (n : ℚ)
  | PyVal.float q => some q
  | PyVal.str s => parseFloatStr (pyStrip s)
  | PyVal.list _ => Option.none

/-- The filesystem visible to the text-editor tool: regular files with their
contents, and directories with their entry names. -/
structure PyFS where
  files : List (String × String)
  dirs : List (String × List String)
deriving DecidableEq, Repr

/-- `os.path.isfile`. -/
def isfile (fs : PyFS) (p : String) : Bool :=
  (fs.files.lookup p).isSome

/-- `os.path.isdir`. -/
def isdir (fs : PyFS) (p : String) : Bool :=
  (fs.dirs.lookup p).isSome

/-- `os.path.exists`. -/
def pyExists (fs : PyFS) (p : String) : Bool :=
  isfile fs p || isdir fs p

/-- Update-or-insert into an association list. -/
def setAssoc : List (String × String) → String → String → List (String × String)
  | [], k, v => [(k, v)]
  | (k', v') :: rest, k, v =>
    if k' = k then (k, v) :: rest else (k', v') :: setAssoc rest k v

/-- Write `content` to `p` (creating or overwriting the file). -/
def writeFile (fs : PyFS) (p content : String) : PyFS :=
  { fs with files := setAssoc fs.files p content }

/-! ## Path sandbox (`src/tools/text_editor.py`) -/

/-- The `absolute_path` field of a context-file entry
(`claudette_context_files` values). -/
structure CtxFileInfo where
  absolute_path : Option String
deriving DecidableEq, Repr

/-- Embedding of `ensure_under_root`: `file_path` is under one of the
allowed roots.  The CPython `try` wraps the whole loop, so the first
`ValueError` from `os.path.commonpath` (mixed absolute/relative arguments)
aborts the remaining roots and yields `False`. -/
def ensure_under_root (file_path : String) : List String → Bool
  | [] => false
  | root :: rest =>
    match pyCommonpath2 root file_path with
    | Option.none => false
    | some c => if c = root then true else ensure_under_root file_path rest

/-- Embedding of `_find_in_context_files`: first context entry whose
basename matches, provided its `absolute_path` is a present file. -/
def find_in_context_files (fs : PyFS) (path : String) :
    List (String × CtxFileInfo) → Option String
  | [] => Option.none
  | (rel, info) :: rest =>
    if pyBasename rel = pyBasename path then
      match info.absolute_path with
      | some ap =>
        if ap ≠ "" && isfile fs ap then some ap
        else find_in_context_files fs path rest
      | Option.none => find_in_context_files fs path rest
    else find_in_context_files fs path rest

/-- Embedding of `_find_in_open_views`: first open view whose file name has a
matching basename (`Option.none` entries are views without a file). -/
def find_in_open_views (path : String) : List (Option String) → Option String
  | [] => Option.none
  | v :: rest =>
    match v with
    | some fn =>
      if fn ≠ "" && pyBasename fn = pyBasename path then some fn
      else find_in_open_views path rest
    | Option.none => find_in_open_views path rest

/-- The `for root in allowed_roots` loop of `resolve_path` for an absolute
normalized path; a `ValueError` from `commonpath` continues with the next
root. -/
def resolveAbsLoop (normalized : String) : List String → Except String String
  | [] => Except.error "Error: Path is outside allowed project roots."
  | root :: rest =>
    match pyCommonpath2 root normalized with
    | Option.none => resolveAbsLoop normalized rest
    | some c =>
      if c = root then Except.ok normalized else resolveAbsLoop normalized rest

/-- The `for root in allowed_roots` loop of `resolve_path` for a relative
normalized path: join against each root and accept the first containment
match. -/
def resolveRelLoop (normalized : String) : List String → Except String String
  | [] => Except.error "Error: Path is outside allowed project roots."
  | root :: rest =>
    let candidate := pyNormpath (pyJoin root normalized)
    match pyCommonpath2 root candidate with
    | Option.none => resolveRelLoop normalized rest
    | some c =>
      if c = root then Except.ok candidate else resolveRelLoop normalized rest

/-- The bare-filename hint lookup of `resolve_path` (context files first,
then open views), each accepted only when under an allowed root.  A hit that
fails the root check falls through, exactly as in the source. -/
def resolveHints (fs : PyFS) (normalized : String) (allowed_roots : List String)
    (context_files : List (String × CtxFileInfo))
    (window : Option (List (Option String))) : Option String :=
  if pyDirname normalized = "" || pyDirname normalized = "." then
    let fromCtx :=
      if !context_files.isEmpty then
        match find_in_context_files fs normalized context_files with
        | some found =>
          if ensure_under_root found allowed_roots then some found else Option.none
        | Option.none => Option.none
      else Option.none
    match fromCtx with
    | some f => some f
    | Option.none =>
      match window with
      | some views =>
        match find_in_open_views normalized views with
        | some found =>
          if ensure_under_root found allowed_roots then some found else Option.none
        | Option.none => Option.none
      | Option.none => Option.none
  else Option.none

/-- Embedding of `resolve_path`: resolve a model-supplied path against the
allowed roots.  `Except.ok` is the `(resolved, None)` return,
`Except.error` the `(None, error_message)` return. -/
def resolve_path (fs : PyFS) (path : PyVal) (allowed_roots : List String)
    (context_files : List (String × CtxFileInfo))
    (window : Option (List (Option String))) : Except String String :=
  match path with
  | PyVal.str s0 =>
    if s0 = "" then Except.error "Error: Invalid path."
    else
      let s := pyStrip s0
      if s = "" then Except.error "Error: Invalid path."
      else
        let normalized := pyNormpath s
        if strStartsWith normalized ".." || strContains normalized "/.." ||
            strContains normalized "\\.." then
          Except.error "Error: Path traversal is not allowed."
        else
          match resolveHints fs normalized allowed_roots context_files window with
          | some f => Except.ok f
          | Option.none =>
            if strStartsWith normalized "/" then resolveAbsLoop normalized allowed_roots
            else resolveRelLoop normalized allowed_roots
  | _ => Except.error "Error: Invalid path."

/-! ## Text-editor tool operations (`src/tools/text_editor.py`)

Each `execute_*` returns the Python `(content, is_error)` pair (plus the
updated filesystem for the writing operations) inside `Except String`, whose
`error` constructor models a Python exception escaping the function. -/

/-- A single quote character, used when quoting the unknown command name. -/
def sq : String := String.singleton (Char.ofNat 39)

/-- `str(v)` for the purposes of error-message formatting. -/
def pyStrOf : PyVal → String
  | PyVal.str s => s
  | PyVal.int n => toString n
  | PyVal.bool b => if b then "True" else "False"
  | PyVal.none => "None"
  | PyVal.float _ => "float"
  | PyVal.list _ => "list"

/-- Number lines `"{i}: {line}"` starting at `start`. -/
def numberLinesFrom (start : Int) (ls : List String) : List String :=
  ls.mapIdx (fun i l => toString (start + i) ++ ": " ++ l)

/-- The `lines[start_line - 1:end_line]` slice. -/
def sliceLines (ls : List String) (start_line end_line : Int) : List String :=
  (ls.drop (start_line - 1).toNat).take (end_line - (start_line - 1)).toNat

/-- The truncation applied by `execute_view` when a character budget is set. -/
def truncateContent (content : String) (max_characters : Option Int) : String :=
  match max_characters with
  | some m =>
    if m > 0 && (content.data.length : Int) > m then
      String.mk (content.data.take m.toNat) ++ "\n... (truncated)"
    else content
  | Option.none => content

/-- Embedding of `execute_view`: read a file (line-numbered, optionally
sliced by `view_range` and truncated) or list a directory.  `Except.error`
models the `ValueError`/`TypeError` raised by `int(...)` on malformed
`view_range` entries. -/
def execute_view (fs : PyFS) (path : PyVal) (allowed_roots : List String)
    (view_range : PyVal) (max_characters : Option Int)
    (context_files : List (String × CtxFileInfo))
    (window : Option (List (Option String))) : Except String (String × Bool) :=
  match resolve_path fs path allowed_roots context_files window with
  | Except.error err => Except.ok (err, true)
  | Except.ok resolved =>
    match fs.dirs.lookup resolved with
    | some names =>
      Except.ok (joinNL (numberLinesFrom 1 (sortStrings names)), false)
    | Option.none =>
      match fs.files.lookup resolved with
      | Option.none => Except.ok ("Error: File not found", true)
      | some content =>
        let rangedE : Except String (String × Bool) :=
          match view_range with
          | PyVal.list vr =>
            if pyTruthy (PyVal.list vr) && vr.length ≥ 2 then
              match vr with
              | v0 :: v1 :: _ =>
                match (match v0 with
                       | PyVal.none => Except.ok (1 : Int)
                       | _ => pyInt v0) with
                | Except.error e => Except.error e
                | Except.ok i0 =>
                  let start_line := max 1 i0
                  let lines := pySplitlines content
                  let total : Int := lines.length
                  match (if pyEqInt v1 (-1) then Except.ok total
                         else (pyInt v1).map (fun i => min total (max 1 i))) with
                  | Except.error e => Except.error e
                  | Except.ok end_line =>
                    if start_line > end_line || start_line > total then
                      Except.ok ("Error: Invalid view_range", true)
                    else
                      Except.ok
                        (joinNL (numberLinesFrom start_line (sliceLines lines start_line end_line)),
                         false)
              | _ => Except.ok (joinNL (numberLinesFrom 1 (pySplitlines content)), false)
            else Except.ok (joinNL (numberLinesFrom 1 (pySplitlines content)), false)
          | _ => Except.ok (joinNL (numberLinesFrom 1 (pySplitlines content)), false)
        match rangedE with
        | Except.error e => Except.error e
        | Except.ok (txt, true) => Except.ok (txt, true)
        | Except.ok (txt, false) => Except.ok (truncateContent txt max_characters, false)

/-- Embedding of `execute_str_replace`: replace `old_str` by `new_str`
exactly once.  `Except.error "TypeError"` models `str.count`/`str.replace`
being handed a non-string argument. -/
def execute_str_replace (fs : PyFS) (path old_str new_str : PyVal)
    (allowed_roots : List String) (context_files : List (String × CtxFileInfo))
    (window : Option (List (Option String))) : Except String (String × Bool × PyFS) :=
  match resolve_path fs path allowed_roots context_files window with
  | Except.error err => Except.ok (err, true, fs)
  | Except.ok resolved =>
    if !isfile fs resolved then Except.ok ("Error: File not found", true, fs)
    else if !ensure_under_root resolved allowed_roots then
      Except.ok ("Error: Path is outside allowed project roots.", true, fs)
    else
      let content := (fs.files.lookup resolved).getD ""
      match old_str with
      | PyVal.str o =>
        let count := countOcc content.data o.data
        if count = 0 then
          Except.ok ("Error: No match found for replacement. Please check your text and try again.",
                     true, fs)
        else if count > 1 then
          Except.ok ("Error: Found " ++ toString count ++
                     " matches for replacement text. Please provide more context to make a unique match.",
                     true, fs)
        else
          match new_str with
          | PyVal.str n =>
            Except.ok ("Successfully replaced text at exactly one location.", false,
                       writeFile fs resolved (String.mk (replaceOnce content.data o.data n.data)))
          | _ => Except.error "TypeError"
      | _ => Except.error "TypeError"

/-- Embedding of `execute_create`: create a new file, making the parent
directory if needed (the model records just the immediate parent; deeper
ancestors are not tracked).  `Except.error "TypeError"` models `f.write`
being handed a non-string. -/
def execute_create (fs : PyFS) (path file_text : PyVal) (allowed_roots : List String)
    (context_files : List (String × CtxFileInfo))
    (window : Option (List (Option String))) : Except String (String × Bool × PyFS) :=
  match resolve_path fs path allowed_roots context_files window with
  | Except.error err => Except.ok (err, true, fs)
  | Except.ok resolved =>
    if pyExists fs resolved then Except.ok ("Error: File already exists.", true, fs)
    else
      let parent := pyDirname resolved
      let fs1 :=
        if parent ≠ "" && !isdir fs parent then
          { fs with dirs := (parent, []) :: fs.dirs }
        else fs
      if !ensure_under_root resolved allowed_roots then
        Except.ok ("Error: Path is outside allowed project roots.", true, fs1)
      else
        match file_text with
        | PyVal.str t => Except.ok ("Successfully created file.", false, writeFile fs1 resolved t)
        | _ => Except.error "TypeError"

/-- Embedding of `execute_insert`: insert text after the given line number
(`0` prepends).  `Except.error` models `int(insert_line)` raising, or string
concatenation with a non-string `insert_text`. -/
def execute_insert (fs : PyFS) (path insert_line insert_text : PyVal)
    (allowed_roots : List String) (context_files : List (String × CtxFileInfo))
    (window : Option (List (Option String))) : Except String (String × Bool × PyFS) :=
  match resolve_path fs path allowed_roots context_files window with
  | Except.error err => Except.ok (err, true, fs)
  | Except.ok resolved =>
    if !isfile fs resolved then Except.ok ("Error: File not found", true, fs)
    else if !ensure_under_root resolved allowed_roots then
      Except.ok ("Error: Path is outside allowed project roots.", true, fs)
    else
      let content := (fs.files.lookup resolved).getD ""
      let lines := pyReadlines content
      match pyInt insert_line with
      | Except.error e => Except.error e
      | Except.ok il0 =>
        let il1 := max 0 il0
        let il := if il1 > (lines.length : Int) then (lines.length : Int) else il1
        match insert_text with
        | PyVal.str itext =>
          let new_content :=
            if il = 0 then
              itext ++
                (match lines with
                 | [] => ""
                 | l0 :: _ => if !strEndsWith l0 "\n" then "\n" else "") ++
                strConcat lines
            else
              let before := lines.take il.toNat
              let after := lines.drop il.toNat
              strConcat before ++ itext ++
                (if !after.isEmpty && !strEndsWith itext "\n" then "\n" else "") ++
                strConcat after
          Except.ok ("Successfully inserted text.", false, writeFile fs resolved new_content)
        | _ => Except.error "TypeError"

/-- The `tool_result` block returned by `run_text_editor_tool`. -/
structure ToolResult where
  type : String
  tool_use_id : String
  content : String
  is_error : Bool
deriving DecidableEq, Repr

/-- Embedding of `run_text_editor_tool`: dispatch on `command` and wrap the
operation result into a `tool_result` block.  The allowed roots (computed by
`get_allowed_roots` from the live window and settings in the source) are a
parameter here.  `Except.error` models a Python exception escaping the
function. -/
def run_text_editor_tool (fs : PyFS) (allowed_roots : List String)
    (context_files : List (String × CtxFileInfo))
    (window : Option (List (Option String))) (max_characters : Option Int)
    (tool_use_id : String) (tool_name : String)
    (input_params : List (String × PyVal)) : Except String (ToolResult × PyFS) :=
  let _ := tool_name
  let command := pyGet input_params "command" (PyVal.str "")
  let path := pyGet input_params "path" (PyVal.str "")
  if !pyTruthy command then
    Except.ok ({ type := "tool_result", tool_use_id := tool_use_id,
                 content := "Error: Missing command.", is_error := true }, fs)
  else if pyEqStr command "view" then
    let view_range := pyGet input_params "view_range" PyVal.none
    match execute_view fs path allowed_roots view_range max_characters context_files window with
    | Except.error e => Except.error e
    | Except.ok (content, is_error) =>
      Except.ok ({ type := "tool_result", tool_use_id := tool_use_id,
                   content := content, is_error := is_error }, fs)
  else if pyEqStr command "str_replace" then
    let old_str := pyGet input_params "old_str" (PyVal.str "")
    let new_str := pyGet input_params "new_str" (PyVal.str "")
    match execute_str_replace fs path old_str new_str allowed_roots context_files window with
    | Except.error e => Except.error e
    | Except.ok (content, is_error, fs') =>
      Except.ok ({ type := "tool_result", tool_use_id := tool_use_id,
                   content := content, is_error := is_error }, fs')
  else if pyEqStr command "create" then
    let file_text := pyGet input_params "file_text" (PyVal.str "")
    match execute_create fs path file_text allowed_roots context_files window with
    | Except.error e => Except.error e
    | Except.ok (content, is_error, fs') =>
      Except.ok ({ type := "tool_result", tool_use_id := tool_use_id,
                   content := content, is_error := is_error }, fs')
  else if pyEqStr command "insert" then
    let insert_line := pyGet input_params "insert_line" (PyVal.int 0)
    let insert_text := pyGet input_params "insert_text" (PyVal.str "")
    match execute_insert fs path insert_line insert_text allowed_roots context_files window with
    | Except.error e => Except.error e
    | Except.ok (content, is_error, fs') =>
      Except.ok ({ type := "tool_result", tool_use_id := tool_use_id,
                   content := content, is_error := is_error }, fs')
  else
    Except.ok ({ type := "tool_result", tool_use_id := tool_use_id,
                 content := "Error: Unknown command " ++ sq ++ pyStrOf command ++ sq ++ ".",
                 is_error := true }, fs)

/-! ## Tool-use loop (`run_with_text_editor_loop`, `src/api/api.py`) -/

/-- A content block of a non-streaming API response, with the fields the
loop reads (`type`, `text`, `id`, `name`, `input`). -/
inductive RespBlock where
  | text (t : String)
  | toolUse (id name : String) (input : List (String × PyVal))
  | other (ty : String)

/-- Is this a `tool_use` block? -/
def RespBlock.isToolUse : RespBlock → Bool
  | RespBlock.toolUse _ _ _ => true
  | _ => false

/-- The `id` of a `tool_use` block. -/
def RespBlock.toolUseId : RespBlock → Option String
  | RespBlock.toolUse id _ _ => some id
  | _ => Option.none

/-- Does the block survive into the assistant turn (`text` with nonempty
text, or `tool_use`)? -/
def RespBlock.keptInAssistant : RespBlock → Bool
  | RespBlock.text t => t ≠ ""
  | RespBlock.toolUse _ _ _ => true
  | RespBlock.other _ => false

/-- Message content as appended to the conversation history by the loop. -/
inductive MsgContent where
  | ofString (s : String)
  | ofBlocks (bs : List RespBlock)
  | ofToolResults (rs : List ToolResult)

/-- A conversation message. -/
structure ApiMessage where
  role : String
  content : MsgContent

/-- The `for block in content` loop of the `tool_use` branch
(lines 330–363 of `src/api/api.py`): collect the assistant blocks, run the
tool executor once per `tool_use` block in order (threading the filesystem),
and collect one `tool_result` per invocation.  An exception from the
executor propagates (`Except.error`), aborting the whole turn exactly as the
source's enclosing `except Exception` does. -/
def run_tool_blocks (allowed_roots : List String)
    (context_files : List (String × CtxFileInfo))
    (window : Option (List (Option String))) (max_characters : Option Int) :
    PyFS → List RespBlock → Except String (List RespBlock × List ToolResult × PyFS)
  | fs, [] => Except.ok ([], [], fs)
  | fs, RespBlock.text t :: rest =>
    match run_tool_blocks allowed_roots context_files window max_characters fs rest with
    | Except.error e => Except.error e
    | Except.ok (ac, trs, fs') =>
      Except.ok ((if t ≠ "" then RespBlock.text t :: ac else ac), trs, fs')
  | fs, RespBlock.toolUse id name inp :: rest =>
    match run_text_editor_tool fs allowed_roots context_files window max_characters id name inp with
    | Except.error e => Except.error e
    | Except.ok (r, fs1) =>
      match run_tool_blocks allowed_roots context_files window max_characters fs1 rest with
      | Except.error e => Except.error e
      | Except.ok (ac, trs, fs') =>
        Except.ok (RespBlock.toolUse id name inp :: ac, r :: trs, fs')
  | fs, RespBlock.other ty :: rest =>
    let _ := ty
    run_tool_blocks allowed_roots context_files window max_characters fs rest

/-- One `stop_reason == 'tool_use'` iteration of `run_with_text_editor_loop`:
run the blocks, then append the assistant turn (text + tool_use blocks) and a
new user turn (the tool_result blocks) to the history before the next
request. -/
def tool_loop_step (allowed_roots : List String)
    (context_files : List (String × CtxFileInfo))
    (window : Option (List (Option String))) (max_characters : Option Int)
    (fs : PyFS) (current_messages : List ApiMessage) (content : List RespBlock) :
    Except String (List ApiMessage × PyFS) :=
  match run_tool_blocks allowed_roots context_files window max_characters fs content with
  | Except.error e => Except.error e
  | Except.ok (assistant_content, tool_results, fs') =>
    Except.ok
      (current_messages ++
        [{ role := "assistant", content := MsgContent.ofBlocks assistant_content },
         { role := "user", content := MsgContent.ofToolResults tool_results }],
       fs')

/-! ## Streaming response handler (`src/api/handler.py`) -/

/-- A thinking block kept for replay
(`{"type": "thinking", ...}` / `{"type": "redacted_thinking", ...}`). -/
inductive TBlock where
  | thinking (text signature : String)
  | redacted (data : String)
deriving DecidableEq, Repr

/-- The mutable state of `ClaudetteStreamingResponseHandler`; `view_output`
records the strings passed to `_output_text` (the editor view), in order. -/
structure HandlerState where
  current_response : String
  thinking_blocks : List TBlock
  current_thinking_text : String
  current_thinking_signature : Option String
  current_redacted_data : String
  is_completed : Bool
  in_thinking_block : Bool
  in_redacted_block : Bool
  line_buffer : String
  at_line_start : Bool
  view_output : List String
deriving DecidableEq, Repr

/-- The handler state after `__init__`. -/
def initHandlerState : HandlerState :=
  { current_response := "", thinking_blocks := [], current_thinking_text := "",
    current_thinking_signature := Option.none, current_redacted_data := "",
    is_completed := false, in_thinking_block := false, in_redacted_block := false,
    line_buffer := "", at_line_start := true, view_output := [] }

/-- Embedding of `_output_text` (appends to the view when nonempty). -/
def outputText (st : HandlerState) (t : String) : HandlerState :=
  if t ≠ "" then { st with view_output := st.view_output ++ [t] } else st

/-- The `for char in chunk` loop of `append_chunk`: h1-to-h2 conversion via
`line_buffer`/`at_line_start`. -/
def processChars (st : HandlerState) : List Char → HandlerState
  | [] => st
  | c :: rest =>
    let st1 :=
      if st.at_line_start then
        let lb := st.line_buffer ++ String.singleton c
        if lb = "# " then
          let o := outputText st "## "
          { o with line_buffer := "", at_line_start := false }
        else if lb = "#" then { st with line_buffer := lb }
        else if strStartsWith lb "##" then
          let o := outputText st lb
          { o with line_buffer := "", at_line_start := false }
        else if !strStartsWith "# " lb then
          let o := outputText st lb
          { o with line_buffer := "", at_line_start := false }
        else { st with line_buffer := lb }
      else outputText st (String.singleton c)
    let st2 := if c = '\n' then { st1 with at_line_start := true } else st1
    processChars st2 rest

/-- The tail of `append_chunk` after the thinking/redacted dispatch:
thinking text accumulation, regular text accumulation with h1-to-h2
rewriting, flush and completion on `is_done`. -/
def appendChunkText (st : HandlerState) (chunk : String) (is_done is_thinking : Bool) :
    HandlerState :=
  if is_thinking && st.in_thinking_block && chunk ≠ "" then
    outputText { st with current_thinking_text := st.current_thinking_text ++ chunk } chunk
  else
    let st1 :=
      if chunk ≠ "" then
        processChars { st with current_response := st.current_response ++ chunk } chunk.data
      else st
    let st2 :=
      if is_done && st1.line_buffer ≠ "" then
        let o := outputText st1 st1.line_buffer
        { o with line_buffer := "" }
      else st1
    if is_done then { st2 with is_completed := true } else st2

/-- Embedding of `ClaudetteStreamingResponseHandler.append_chunk`. -/
def append_chunk (st : HandlerState) (chunk : String) (is_done is_thinking : Bool)
    (thinking_event : Option String) (thinking_signature : Option String)
    (redacted_data : Option String) : HandlerState :=
  match thinking_signature with
  | some sig =>
    { st with
      thinking_blocks := st.thinking_blocks ++ [TBlock.thinking st.current_thinking_text sig],
      current_thinking_text := "", current_thinking_signature := Option.none,
      in_thinking_block := false }
  | Option.none =>
    if thinking_event = some "start" then
      outputText { st with in_thinking_block := true } "**Thinking...**\n\n"
    else if thinking_event = some "start_redacted" then
      outputText { st with in_redacted_block := true, current_redacted_data := "" }
        "*(Reasoning encrypted for safety.)*\n\n"
    else if thinking_event = some "end_redacted" then
      let st' :=
        if st.current_redacted_data ≠ "" then
          { st with thinking_blocks := st.thinking_blocks ++ [TBlock.redacted st.current_redacted_data] }
        else st
      { st' with current_redacted_data := "", in_redacted_block := false }
    else if thinking_event = some "end" then
      outputText { st with in_thinking_block := false } "\n\n---\n\n"
    else
      match redacted_data with
      | some rd =>
        if st.in_redacted_block then
          { st with current_redacted_data := st.current_redacted_data ++ rd }
        else appendChunkText st chunk is_done is_thinking
      | Option.none => appendChunkText st chunk is_done is_thinking

/-- Embedding of `get_thinking_blocks`: the committed blocks, plus the
pending one when both its text and its signature are truthy. -/
def get_thinking_blocks (st : HandlerState) : List TBlock :=
  st.thinking_blocks ++
    (match st.current_thinking_signature with
     | some sig =>
       if st.current_thinking_text ≠ "" && sig ≠ "" then
         [TBlock.thinking st.current_thinking_text sig]
       else []
     | Option.none => [])

/-- Embedding of `get_response_content`. -/
def get_response_content (st : HandlerState) : String :=
  st.current_response

/-- The arguments of one `append_chunk` call. -/
structure ChunkCall where
  chunk : String
  is_done : Bool
  is_thinking : Bool
  thinking_event : Option String
  thinking_signature : Option String
  redacted_data : Option String

/-- One `append_chunk` call with the given arguments (used to fold call
sequences). -/
def chunkStep (st : HandlerState) (a : ChunkCall) : HandlerState :=
  append_chunk st a.chunk a.is_done a.is_thinking a.thinking_event a.thinking_signature
    a.redacted_data

/-- Run a sequence of `append_chunk` calls on a fresh handler. -/
def runChunkCalls (calls : List ChunkCall) : HandlerState :=
  calls.foldl chunkStep initHandlerState

/-! ## API client (`src/api/api.py`) -/

/-- Embedding of `ClaudetteClaudeAPI.get_valid_temperature`: coerce to a
number, keep it when inside `[0.0, 1.0]`, else fall back to `1.0` (also on a
failed conversion). -/
def get_valid_temperature (temp : PyVal) : ℚ :=
  match pyFloat temp with
  | some t => if 0 ≤ t && t ≤ 1 then t else 1
  | Option.none => 1

/-- A pricing tier: per-1000-token rates.  `input`/`output` are accessed
with `[...]` in the source (always present), the cache rates with `.get`
(default `0`), hence the `Option`s. -/
structure PriceTier where
  input : ℚ
  output : ℚ
  cache_write : Option ℚ
  cache_read : Option ℚ
deriving DecidableEq, Repr

/-- The `for tier in self.pricing.keys()` lookup of `calculate_cost`:
first tier whose key is a substring of the lowercased model name
(dict iteration order = insertion order, modelled by the list order). -/
def findTier : List (String × PriceTier) → String → Option PriceTier
  | [], _ => Option.none
  | (key, tier) :: rest, model_lower =>
    if strContains model_lower key then some tier else findTier rest model_lower

/-- Embedding of `ClaudetteClaudeAPI.calculate_cost`.  The pricing table
(`self.pricing`, a settings dict) is a parameter; token counts are integers
and money is exact (`ℚ`), matching Python's true division by 1000. -/
def calculate_cost (pricing : List (String × PriceTier)) (model : String)
    (input_tokens output_tokens cache_read_tokens cache_write_tokens : Int) : ℚ :=
  let model_lower := pyLower model
  match findTier pricing model_lower with
  | Option.none => 0
  | some price_tier =>
    let input_cost := ((input_tokens : ℚ) - (cache_read_tokens : ℚ)) / 1000 * price_tier.input
    let output_cost := (output_tokens : ℚ) / 1000 * price_tier.output
    let cache_write_cost := (cache_write_tokens : ℚ) / 1000 * price_tier.cache_write.getD 0
    let cache_read_cost := (cache_read_tokens : ℚ) / 1000 * price_tier.cache_read.getD 0
    input_cost + output_cost + cache_write_cost + cache_read_cost

/-! ### Request bodies

The `data` dicts built by `stream_response` (lines 491–527) and
`_request_non_streaming` (lines 186–195), as ordered key/value lists. -/

/-- A value stored in a request body. -/
inductive ReqVal where
  | vMessages (ms : List ApiMessage)
  | vInt (n : Int)
  | vStr (s : String)
  | vBool (b : Bool)
  | vSystem (sys : List String)
  | vNum (q : ℚ)
  | vTools (n : Nat)

/-- The request body built by `stream_response`: the dict literal of lines
491–498 plus the `data['tools']` assignment of line 527 when web search is
enabled (`web_tools` abstracts the web-search tool list, whose contents the
claims do not inspect). -/
def buildStreamRequestData (filtered_messages : List ApiMessage) (max_tokens : Int)
    (model : String) (system_messages : List String) (temperature : PyVal)
    (web_tools : Option Nat) : List (String × ReqVal) :=
  [("messages", ReqVal.vMessages filtered_messages),
   ("max_tokens", ReqVal.vInt max_tokens),
   ("model", ReqVal.vStr model),
   ("stream", ReqVal.vBool true),
   ("system", ReqVal.vSystem system_messages),
   ("temperature", ReqVal.vNum (get_valid_temperature temperature))] ++
    (match web_tools with
     | some n => [("tools", ReqVal.vTools n)]
     | Option.none => [])

/-- The request body built by `_request_non_streaming` (lines 186–195);
`tools_list` is appended only when truthy (nonempty). -/
def buildNonStreamingRequestData (messages : List ApiMessage) (max_tokens : Int)
    (model : String) (system_messages : List String) (temperature : PyVal)
    (tools_list : List Nat) : List (String × ReqVal) :=
  [("messages", ReqVal.vMessages messages),
   ("max_tokens", ReqVal.vInt max_tokens),
   ("model", ReqVal.vStr model),
   ("stream", ReqVal.vBool false),
   ("system", ReqVal.vSystem system_messages),
   ("temperature", ReqVal.vNum (get_valid_temperature temperature))] ++
    (if !tools_list.isEmpty then [("tools", ReqVal.vTools tools_list.length)] else [])

/-! ### SSE text-delta emission (`stream_response`, lines 664–684) -/

/-- The `delta` object of a `content_block_delta` frame, with the fields the
text-emission branch reads (`type`, `text`). -/
structure SSEDelta where
  ty : Option String
  text : Option String
deriving DecidableEq, Repr

/-- A parsed `data: <json>` SSE frame: its `type` and optional `delta`. -/
structure SSEFrame where
  ty : String
  delta : Option SSEDelta
deriving DecidableEq, Repr

/-- The text chunks `stream_response` schedules for the sink from one frame:
`delta['text']` when truthy and the delta's `type` is `text_delta` or
absent. -/
def frame_text_chunks (f : SSEFrame) : List String :=
  match f.delta with
  | some d =>
    match d.text with
    | some t =>
      if t ≠ "" && (d.ty = some "text_delta" || d.ty = Option.none) then [t] else []
    | Option.none => []
  | Option.none => []

/-- All text chunks delivered to sink across a frame sequence, in arrival
order. -/
def emitted_text_chunks (frames : List SSEFrame) : List String :=
  (frames.map frame_text_chunks).flatten

/-- The `text` field of a frame's delta when that delta is a `text_delta`. -/
def tdField (f : SSEFrame) : Option String :=
  match f.delta with
  | some d => if d.ty = some "text_delta" then d.text else Option.none
  | Option.none => Option.none

/-- The `text` fields of the `text_delta` deltas, in arrival order. -/
def text_delta_fields (frames : List SSEFrame) : List String :=
  frames.filterMap tdField

/-- Deliver a list of text chunks to the handler the way `stream_response`
does (`chunk_callback(t, is_done=False)`, i.e. all other arguments at their
defaults). -/
def deliver_chunks (st : HandlerState) (chunks : List String) : HandlerState :=
  chunks.foldl
    (fun s c => append_chunk s c false false Option.none Option.none Option.none) st

/-! ### `stream_response` as a transport exchange

`stream_response` contains a single `urllib.request.urlopen` call and no
retry of any kind: every `HTTPError`/`URLError` branch reports an error and
falls through to `finally` without issuing another request, and no
`thinking` key is ever placed in the request body.  The exchange is modelled
as a function of the one outcome the transport can produce, returning the
number of HTTP requests issued together with the terminal error message (if
any) passed to `handle_error`. -/

/-- The outcome of the single HTTP exchange. -/
inductive HttpOutcome where
  | ok (frames : List SSEFrame)
  | httpError (code : Int) (errType errMessage : Option String)
  | urlError (msg : String)

/-- Embedding of `_message_has_content` restricted to the string/list split
of the source. -/
def message_has_content (m : ApiMessage) : Bool :=
  match m.content with
  | MsgContent.ofString s => pyStrip s ≠ ""
  | MsgContent.ofBlocks bs => !bs.isEmpty
  | MsgContent.ofToolResults rs => !rs.isEmpty

/-- The guard on line 468 of `stream_response`
(`any(msg.get('content', '').strip() for msg in messages)`), which the
source applies to string contents. -/
def stream_content_guard (messages : List ApiMessage) : Bool :=
  messages.any
    (fun m =>
      match m.content with
      | MsgContent.ofString s => pyStrip s ≠ ""
      | _ => false)

/-- Replace every occurrence of `old` (Python `str.replace(old, new)`),
used by the model-not-found branch. -/
def replaceAllAux (old new : List Char) : Nat → List Char → List Char
  | 0, s => s
  | _ + 1, [] => []
  | fuel + 1, c :: rest =>
    if old.isPrefixOf (c :: rest) && !old.isEmpty then
      new ++ replaceAllAux old new fuel ((c :: rest).drop old.length)
    else c :: replaceAllAux old new fuel rest

/-- Python `s.replace(old, new)` (nonempty `old`). -/
def pyReplaceAll (s old new : String) : String :=
  String.mk (replaceAllAux old.data new.data s.data.length s.data)

/-- The error message produced by the `HTTPError` handler of
`stream_response` (lines 760–812); the 404 model-not-found branch is
modelled by its `chunk_callback` fallback text. -/
def stream_http_error_message (code : Int) (errType errMessage : Option String) : String :=
  let error_type := errType.getD ""
  let error_message := errMessage.getD ""
  if code = 404 && error_type = "not_found_error" && strStartsWith error_message "model:" then
    let error_model := pyStrip (pyReplaceAll error_message "model:" "")
    "[Error] The \"" ++ error_model ++
      "\" model does not exist. Please update your model via Settings > Package Settings > Claudette > Select Model."
  else if error_message ≠ "" then "[Error] " ++ error_message
  else "[Error] HTTP Error " ++ toString code

/-- The transport behaviour of one `stream_response` call: how many HTTP
requests it issues and the terminal error (if any).  Exactly one request is
issued whenever the input guard and API-key check pass, regardless of the
outcome — there is no retry path in the source. -/
def stream_response_model (api_key : String) (messages : List ApiMessage)
    (outcome : HttpOutcome) : Nat × Option String :=
  if !stream_content_guard messages then (0, Option.none)
  else if api_key = "" then
    (0, some "[Error] The API key is not set. Please check your API key configuration.")
  else
    match outcome with
    | HttpOutcome.ok _ => (1, Option.none)
    | HttpOutcome.httpError code ety emsg => (1, some (stream_http_error_message code ety emsg))
    | HttpOutcome.urlError m => (1, some ("[Error] " ++ m))

/-! ## Statement-side definitions

Predicates and projections used to state the claims (these do not embed
source code; `spec_root_is_ancestor` is deliberately written from the
specification's words for comparison with `resolve_path`). -/

/-- `s` contains `".."` as a whole path segment (split at `'/'`). -/
def hasDotDotSegment (s : String) : Bool :=
  ((splitSlash s.data).map String.mk).contains ".."

/-- Modelled from the spec: "accept only if it is lexically contained in one
of the allowed roots (using a root-prefix containment check, not a string
prefix check)" — `root` is an ancestor of `p` under directory-component
containment (both absolute, `root`'s components a prefix of `p`'s). -/
def spec_root_is_ancestor (root p : String) : Bool :=
  strStartsWith root "/" && strStartsWith p "/" &&
    (filteredComps root).isPrefixOf (filteredComps p)

/-- `r` is a canonical absolute directory path: a single leading slash
followed by its own filtered components (the shape `os.path.normpath`
produces for ordinary absolute paths, and the shape `get_allowed_roots`
stores). -/
def canonicalAbsRoot (r : String) : Prop :=
  r = "/" ++ joinWithSlash (filteredComps r)

/-- Is this Python value a `str`? -/
def isStrPV : PyVal → Bool
  | PyVal.str _ => true
  | _ => false

/-- Does `int(v)` succeed? -/
def intableB (v : PyVal) : Bool :=
  match pyInt v with
  | Except.ok _ => true
  | Except.error _ => false

/-- The `view_range` argument does not make `int(...)` raise: whenever the
source converts an entry, the conversion succeeds. -/
def goodViewRange : PyVal → Bool
  | PyVal.list vr =>
    if pyTruthy (PyVal.list vr) && vr.length ≥ 2 then
      match vr with
      | v0 :: v1 :: _ =>
        (match v0 with
         | PyVal.none => true
         | _ => intableB v0) &&
        (pyEqInt v1 (-1) || intableB v1)
      | _ => true
    else true
  | _ => true

/-- The command-specific fields of a tool call are well typed: no `int(...)`
or string-method call in the executors raises. -/
def wellTypedParams (ps : List (String × PyVal)) : Bool :=
  let command := pyGet ps "command" (PyVal.str "")
  if pyEqStr command "view" then goodViewRange (pyGet ps "view_range" PyVal.none)
  else if pyEqStr command "str_replace" then
    isStrPV (pyGet ps "old_str" (PyVal.str "")) && isStrPV (pyGet ps "new_str" (PyVal.str ""))
  else if pyEqStr command "create" then isStrPV (pyGet ps "file_text" (PyVal.str ""))
  else if pyEqStr command "insert" then
    intableB (pyGet ps "insert_line" (PyVal.int 0)) &&
      isStrPV (pyGet ps "insert_text" (PyVal.str ""))
  else true

/-- A response block is well typed (its tool input, if any, is). -/
def wellTypedBlock : RespBlock → Bool
  | RespBlock.toolUse _ _ inp => wellTypedParams inp
  | _ => true

/-- All response blocks are well typed. -/
def wellTypedBlocks (bs : List RespBlock) : Bool :=
  bs.all wellTypedBlock

/-- Did the computation return a value (no Python exception)? -/
def exceptOk {ε α : Type} : Except ε α → Bool
  | Except.ok _ => true
  | Except.error _ => false

instance {ε α : Type} [DecidableEq ε] [DecidableEq α] : DecidableEq (Except ε α)
  | Except.ok a, Except.ok b =>
    if h : a = b then isTrue (by rw [h]) else isFalse (by intro hh; cases hh; exact h rfl)
  | Except.error a, Except.error b =>
    if h : a = b then isTrue (by rw [h]) else isFalse (by intro hh; cases hh; exact h rfl)
  | Except.ok _, Except.error _ => isFalse (by intro hh; cases hh)
  | Except.error _, Except.ok _ => isFalse (by intro hh; cases hh)

/-- Assistant blocks of a `run_tool_blocks` result (`[]` on exception). -/
def rtbAC (e : Except String (List RespBlock × List ToolResult × PyFS)) : List RespBlock :=
  match e with
  | Except.ok (ac, _, _) => ac
  | Except.error _ => []

/-- Tool results of a `run_tool_blocks` result (`[]` on exception). -/
def rtbTRS (e : Except String (List RespBlock × List ToolResult × PyFS)) : List ToolResult :=
  match e with
  | Except.ok (_, trs, _) => trs
  | Except.error _ => []

/-- Final filesystem of a `run_tool_blocks` result (the default on
exception). -/
def rtbFS (default : PyFS) (e : Except String (List RespBlock × List ToolResult × PyFS)) : PyFS :=
  match e with
  | Except.ok (_, _, fs') => fs'
  | Except.error _ => default

/-- The part of a handler state that the character-level output loop never
touches (everything but `line_buffer`, `at_line_start` and `view_output`). -/
def handlerCore (st : HandlerState) :
    String × List TBlock × String × Option String × String × Bool × Bool × Bool :=
  (st.current_response, st.thinking_blocks, st.current_thinking_text,
   st.current_thinking_signature, st.current_redacted_data, st.is_completed,
   st.in_thinking_block, st.in_redacted_block)

/-- The `tool_result` of a `run_text_editor_tool` call (a placeholder on
exception). -/
def rttResult (e : Except String (ToolResult × PyFS)) : ToolResult :=
  match e with
  | Except.ok (r, _) => r
  | Except.error msg => { type := "", tool_use_id := "", content := msg, is_error := true }

/-- Shared concrete filesystem fixture for the closed test cases. -/
def fsProj : PyFS :=
  { files := [("/proj/a.txt", "ab ab"), ("/proj/b.txt", "a unique b"),
              ("/proj/f.txt", "hello\nworld")],
    dirs := [("/proj", ["a.txt", "b.txt", "f.txt"])] }

/-! ## Theorems -/

/-- `findTier` is the first-match lookup over the pricing list. -/
theorem findTier_eq_find? (pricing : List (String × PriceTier)) (m : String) :
    findTier pricing m =
      (pricing.find? (fun kt => strContains m kt.1)).map Prod.snd := by
  induction pricing with
  | nil => rfl
  | cons kt rest ih =>
    by_cases h : strContains m kt.1 = true
    · simp [findTier, List.find?_cons, h]
    · simp only [Bool.not_eq_true] at h
      simp [findTier, List.find?_cons, h, ih]

/-- C5: `calculate_cost` selects the first pricing tier whose key is a
substring of the lowercase model name, and returns
`(input - cacheRead)/1000 * tier.input + output/1000 * tier.output +
cacheWrite/1000 * cache_write + cacheRead/1000 * cache_read` (missing cache
rates treated as `0`); with no matching tier it returns zero; and
`Cost(1000, 500, 0, 0, "claude-3-opus")` with tier `{input: 15, output: 75}`
equals `52.5`. -/
theorem claim_C5 (pricing : List (String × PriceTier)) (model : String)
    (it ot crt cwt : Int) :
    (findTier pricing (pyLower model) =
      (pricing.find? (fun kt => strContains (pyLower model) kt.1)).map Prod.snd) ∧
    (∀ t, findTier pricing (pyLower model) = some t →
      calculate_cost pricing model it ot crt cwt =
        ((it : ℚ) - (crt : ℚ)) / 1000 * t.input + (ot : ℚ) / 1000 * t.output +
          (cwt : ℚ) / 1000 * t.cache_write.getD 0 + (crt : ℚ) / 1000 * t.cache_read.getD 0) ∧
    (findTier pricing (pyLower model) = Option.none →
      calculate_cost pricing model it ot crt cwt = 0) ∧
    calculate_cost [("claude-3-opus", ⟨15, 75, Option.none, Option.none⟩)]
      "claude-3-opus" 1000 500 0 0 = 105 / 2 := by
  refine ⟨findTier_eq_find? _ _, ?_, ?_, ?_⟩
  · intro t ht
    simp [calculate_cost, ht]
  · intro ht
    simp [calculate_cost, ht]
  · have h : strContains (pyLower "claude-3-opus") "claude-3-opus" = true := by decide
    simp only [calculate_cost, findTier, h, if_true]
    norm_num

/-- C5 witness: the theorem applied to the concrete one-tier table of the
spec's example. -/
theorem claim_C5_witness :
    calculate_cost [("claude-3-opus", ⟨15, 75, Option.none, Option.none⟩)]
        "claude-3-opus" 1000 500 0 0 =
      ((1000 : ℚ) - 0) / 1000 * 15 + (500 : ℚ) / 1000 * 75 +
        (0 : ℚ) / 1000 * ((Option.none : Option ℚ).getD 0) +
        (0 : ℚ) / 1000 * ((Option.none : Option ℚ).getD 0) :=
  (claim_C5 [("claude-3-opus", ⟨15, 75, Option.none, Option.none⟩)]
      "claude-3-opus" 1000 500 0 0).2.1
    ⟨15, 75, Option.none, Option.none⟩ (by rfl)

/-- C10: `get_valid_temperature` always lands in `[0, 1]`: it returns the
converted value when conversion succeeds and the result is in `[0, 1]`, and
`1.0` otherwise (failed conversion or out of range); both request bodies
carry the validated value as their `temperature`. -/
theorem claim_C10 (v : PyVal) :
    (0 ≤ get_valid_temperature v ∧ get_valid_temperature v ≤ 1) ∧
    (∀ t, pyFloat v = some t → 0 ≤ t → t ≤ 1 → get_valid_temperature v = t) ∧
    (pyFloat v = Option.none → get_valid_temperature v = 1) ∧
    (∀ t, pyFloat v = some t → ¬(0 ≤ t ∧ t ≤ 1) → get_valid_temperature v = 1) ∧
    (∀ ms mt model sys wt,
      (buildStreamRequestData ms mt model sys v wt).lookup "temperature" =
        some (ReqVal.vNum (get_valid_temperature v))) ∧
    (∀ ms mt model sys tl,
      (buildNonStreamingRequestData ms mt model sys v tl).lookup "temperature" =
        some (ReqVal.vNum (get_valid_temperature v))) := by
  refine ⟨?_, ?_, ?_, ?_, ?_, ?_⟩
  · unfold get_valid_temperature
    match h : pyFloat v with
    | Option.none => norm_num
    | some t =>
      by_cases h01 : (0 ≤ t && t ≤ 1) = true
      · simp only [h01, if_true]
        simp only [Bool.and_eq_true, decide_eq_true_eq] at h01
        exact h01
      · simp only [h01, if_false]
        norm_num
  · intro t ht h0 h1
    unfold get_valid_temperature
    rw [ht]
    simp [h0, h1]
  · intro ht
    unfold get_valid_temperature
    rw [ht]
  · intro t ht hout
    unfold get_valid_temperature
    rw [ht]
    rcases Decidable.em ((0 ≤ t && t ≤ 1) = true) with h | h
    · simp only [Bool.and_eq_true, decide_eq_true_eq] at h
      exact absurd h hout
    · simp [h]
  · intro ms mt model sys wt
    rfl
  · intro ms mt model sys tl
    rfl

/-- C10 witness: the theorem applied at the float input `0.5 ∈ [0, 1]`. -/
theorem claim_C10_witness :
    get_valid_temperature (PyVal.float (1 / 2)) = 1 / 2 :=
  (claim_C10 (PyVal.float (1 / 2))).2.1 (1 / 2) rfl (by norm_num) (by norm_num)

/-- C3 counterexample: under the claimed scenario (thinking desired, server
answering the first request with a thinking-related HTTP 400),
`stream_response` issues exactly **one** HTTP attempt — not three — and
surfaces the 400 as a terminal error; moreover the request body it builds
never contains a `thinking` key, so no candidate thinking configuration is
ever attached and no mode is cached. -/
theorem claim_C3_counterexample :
    (stream_response_model "key" [{ role := "user", content := MsgContent.ofString "hi" }]
        (HttpOutcome.httpError 400 (some "invalid_request_error")
          (some "thinking is not supported"))).1 = 1 ∧
    (1 : Nat) ≠ 3 ∧
    (stream_response_model "key" [{ role := "user", content := MsgContent.ofString "hi" }]
        (HttpOutcome.httpError 400 (some "invalid_request_error")
          (some "thinking is not supported"))).2 =
      some "[Error] thinking is not supported" ∧
    ((buildStreamRequestData [{ role := "user", content := MsgContent.ofString "hi" }] 8192
          "claude-sonnet-4-5" [] (PyVal.str "1.0") Option.none).map Prod.fst).contains
        "thinking" = false := by
  refine ⟨rfl, by decide, rfl, by decide⟩

/-- C3 as amended: `stream_response` attaches no thinking configuration to
the request body (there is no `thinking` key), makes at most one HTTP
attempt per call regardless of the server's response (zero when the input
guard or the API-key check fails), and maintains no per-model thinking-mode
cache — a thinking-related 400 is surfaced as a terminal error without
retry. -/
theorem claim_C3 (ms : List ApiMessage) (mt : Int) (model : String)
    (sys : List String) (temp : PyVal) (wt : Option Nat) (api_key : String)
    (outcome : HttpOutcome) :
    ((buildStreamRequestData ms mt model sys temp wt).map Prod.fst).contains "thinking" = false ∧
    (stream_response_model api_key ms outcome).1 ≤ 1 ∧
    (∀ code ety emsg, outcome = HttpOutcome.httpError code ety emsg →
      stream_content_guard ms = true → api_key ≠ "" →
      stream_response_model api_key ms outcome =
        (1, some (stream_http_error_message code ety emsg))) := by
  refine ⟨?_, ?_, ?_⟩
  · cases wt <;> simp [buildStreamRequestData]
  · unfold stream_response_model
    split
    · exact Nat.zero_le 1
    · split
      · exact Nat.zero_le 1
      · cases outcome <;> exact Nat.le_refl 1
  · intro code ety emsg hout hguard hkey
    subst hout
    unfold stream_response_model
    rw [hguard]
    simp [hkey]

/-- C3 witness: the amended theorem applied to the counterexample scenario
(one attempt, terminal error, no retry). -/
theorem claim_C3_witness :
    stream_response_model "key" [{ role := "user", content := MsgContent.ofString "hi" }]
        (HttpOutcome.httpError 400 (some "invalid_request_error")
          (some "thinking is not supported")) =
      (1, some (stream_http_error_message 400 (some "invalid_request_error")
        (some "thinking is not supported"))) :=
  ((claim_C3 [{ role := "user", content := MsgContent.ofString "hi" }] 8192 "claude-sonnet-4-5"
        [] (PyVal.str "1.0") Option.none "key"
        (HttpOutcome.httpError 400 (some "invalid_request_error")
          (some "thinking is not supported"))).2.2 400 (some "invalid_request_error")
    (some "thinking is not supported") rfl (by decide) (by decide))

/-- `_output_text` only appends to the view. -/
theorem outputText_core (st : HandlerState) (t : String) :
    handlerCore (outputText st t) = handlerCore st := by
  unfold outputText
  split <;> rfl

/-- The h1-to-h2 character loop only touches the line buffer and the view. -/
theorem processChars_core (cs : List Char) (st : HandlerState) :
    handlerCore (processChars st cs) = handlerCore st := by
  induction cs generalizing st with
  | nil => rfl
  | cons c rest ih =>
    rw [processChars]
    refine (ih _).trans ?_
    dsimp only
    unfold outputText
    split_ifs <;> rfl

/-- Thinking blocks are untouched by `processChars`. -/
theorem processChars_blocks (x : HandlerState) (cs : List Char) :
    (processChars x cs).thinking_blocks = x.thinking_blocks :=
  congrArg (fun y => y.2.1) (processChars_core cs x)

/-- The pending signature is untouched by `processChars`. -/
theorem processChars_sig (x : HandlerState) (cs : List Char) :
    (processChars x cs).current_thinking_signature = x.current_thinking_signature :=
  congrArg (fun y => y.2.2.2.1) (processChars_core cs x)

/-- `current_response` is untouched by `processChars`. -/
theorem processChars_response (x : HandlerState) (cs : List Char) :
    (processChars x cs).current_response = x.current_response :=
  congrArg (fun y => y.1) (processChars_core cs x)

/-- Thinking blocks are untouched by `_output_text`. -/
theorem outputText_blocks (x : HandlerState) (t : String) :
    (outputText x t).thinking_blocks = x.thinking_blocks :=
  congrArg (fun y => y.2.1) (outputText_core x t)

/-- The pending signature is untouched by `_output_text`. -/
theorem outputText_sig (x : HandlerState) (t : String) :
    (outputText x t).current_thinking_signature = x.current_thinking_signature :=
  congrArg (fun y => y.2.2.2.1) (outputText_core x t)

/-- `current_response` is untouched by `_output_text`. -/
theorem outputText_response (x : HandlerState) (t : String) :
    (outputText x t).current_response = x.current_response :=
  congrArg (fun y => y.1) (outputText_core x t)

/-- The plain-text tail of `append_chunk` never changes the committed
thinking blocks or the pending signature. -/
theorem appendChunkText_blocks (st : HandlerState) (c : String) (d th : Bool) :
    (appendChunkText st c d th).thinking_blocks = st.thinking_blocks ∧
    (appendChunkText st c d th).current_thinking_signature =
      st.current_thinking_signature := by
  unfold appendChunkText
  split_ifs <;> constructor <;>
    simp [apply_ite HandlerState.thinking_blocks,
      apply_ite HandlerState.current_thinking_signature, processChars_blocks,
      processChars_sig, outputText_blocks, outputText_sig]

/-- `append_chunk` never installs a pending signature: if none is pending it
stays that way (the source only ever resets `current_thinking_signature`). -/
theorem append_chunk_sig_none (st : HandlerState) (c : String) (d th : Bool)
    (te ts rd : Option String) (h : st.current_thinking_signature = Option.none) :
    (append_chunk st c d th te ts rd).current_thinking_signature = Option.none := by
  unfold append_chunk
  match ts with
  | some sig => rfl
  | Option.none =>
    dsimp only
    split_ifs <;>
      first
      | exact (outputText_sig _ _).trans h
      | exact h
      | (cases rd with
         | some rdv =>
           first
           | exact h
           | exact (appendChunkText_blocks st c d th).2.trans h
         | none => exact (appendChunkText_blocks st c d th).2.trans h)

/-- Every thinking block added by one `append_chunk` call is either carried
over, committed by the call's `thinking_signature` argument, or a redacted
block with nonempty data. -/
theorem append_chunk_blocks_sub (st : HandlerState) (c : String) (d th : Bool)
    (te ts rd : Option String) :
    ∀ b ∈ (append_chunk st c d th te ts rd).thinking_blocks,
      b ∈ st.thinking_blocks ∨
        (∃ t s, b = TBlock.thinking t s ∧ ts = some s) ∨
        (∃ dd, b = TBlock.redacted dd ∧ dd ≠ "") := by
  unfold append_chunk
  match ts with
  | some sig =>
    intro b hb
    dsimp only at hb
    rcases List.mem_append.mp hb with h | h
    · exact Or.inl h
    · rcases List.mem_singleton.mp h with rfl
      exact Or.inr (Or.inl ⟨st.current_thinking_text, sig, rfl, rfl⟩)
  | Option.none =>
    intro b hb
    dsimp only at hb
    split_ifs at hb
    · rw [outputText_blocks] at hb
      exact Or.inl hb
    · rw [outputText_blocks] at hb
      exact Or.inl hb
    · rcases List.mem_append.mp hb with hmem | hmem
      · exact Or.inl hmem
      · rcases List.mem_singleton.mp hmem with rfl
        refine Or.inr (Or.inr ⟨st.current_redacted_data, rfl, ?_⟩)
        assumption
    · exact Or.inl hb
    · rw [outputText_blocks] at hb
      exact Or.inl hb
    · cases rd with
      | some rdv => exact Or.inl hb
      | none =>
        rw [(appendChunkText_blocks st c d th).1] at hb
        exact Or.inl hb
    · cases rd with
      | some rdv =>
        rw [(appendChunkText_blocks st c d th).1] at hb
        exact Or.inl hb
      | none =>
        rw [(appendChunkText_blocks st c d th).1] at hb
        exact Or.inl hb

/-- Invariant of a fresh handler driven by arbitrary `append_chunk` calls:
no pending signature ever appears, and every committed block either was
committed by some call's `thinking_signature` argument or is a redacted
block with nonempty data. -/
theorem chunkFold_inv (calls : List ChunkCall) (st : HandlerState)
    (hsig : st.current_thinking_signature = Option.none) :
    (calls.foldl chunkStep st).current_thinking_signature = Option.none ∧
    ∀ b ∈ (calls.foldl chunkStep st).thinking_blocks,
      b ∈ st.thinking_blocks ∨
        (∃ t s, b = TBlock.thinking t s ∧
          some s ∈ calls.map (fun a => a.thinking_signature)) ∨
        (∃ dd, b = TBlock.redacted dd ∧ dd ≠ "") := by
  induction calls generalizing st with
  | nil => exact ⟨hsig, fun b hb => Or.inl hb⟩
  | cons a rest ih =>
    have hs' : (chunkStep st a).current_thinking_signature = Option.none :=
      append_chunk_sig_none st a.chunk a.is_done a.is_thinking a.thinking_event
        a.thinking_signature a.redacted_data hsig
    obtain ⟨h1, h2⟩ := ih (chunkStep st a) hs'
    refine ⟨h1, fun b hb => ?_⟩
    rcases h2 b hb with hmem | ⟨t, s, rfl, hs⟩ | hred
    · rcases append_chunk_blocks_sub st a.chunk a.is_done a.is_thinking a.thinking_event
          a.thinking_signature a.redacted_data b hmem with h | ⟨t, s, rfl, hts⟩ | h
      · exact Or.inl h
      · refine Or.inr (Or.inl ⟨t, s, rfl, ?_⟩)
        simp only [List.map_cons, List.mem_cons]
        exact Or.inl hts.symm
      · exact Or.inr (Or.inr h)
    · refine Or.inr (Or.inl ⟨t, s, rfl, ?_⟩)
      simp only [List.map_cons, List.mem_cons]
      exact Or.inr hs
    · exact Or.inr (Or.inr hred)

/-- C7 as amended: after any sequence of `append_chunk` calls on a fresh
handler, every block returned by `get_thinking_blocks` satisfies: a
`redacted_thinking` block carries nonempty opaque data, and a `thinking`
block carries exactly a signature that arrived as a `thinking_signature`
argument of some call (the source commits the signature value as given, so
an explicitly delivered **empty** signature is kept — see the
counterexample); thinking text whose signature never arrived is never
included. -/
theorem claim_C7 (calls : List ChunkCall) :
    ∀ b ∈ get_thinking_blocks (runChunkCalls calls),
      (∀ dd, b = TBlock.redacted dd → dd ≠ "") ∧
      (∀ t s, b = TBlock.thinking t s →
        some s ∈ calls.map (fun a => a.thinking_signature)) := by
  intro b hb
  have hinv := chunkFold_inv calls initHandlerState rfl
  rw [runChunkCalls] at hb
  rw [get_thinking_blocks, hinv.1] at hb
  simp only [List.append_nil] at hb
  rcases hinv.2 b hb with hmem | ⟨t, s, rfl, hs⟩ | ⟨dd, rfl, hdd⟩
  · simp [initHandlerState] at hmem
  · constructor
    · intro dd h
      cases h
    · intro t' s' h
      cases h
      exact hs
  · constructor
    · intro dd' h
      cases h
      exact hdd
    · intro t' s' h
      cases h

/-- C7 witness: the amended theorem applied to a single call committing the
signature `"sig"`; the committed block indeed carries a delivered
signature. -/
theorem claim_C7_witness :
    (∀ dd, TBlock.thinking "" "sig" = TBlock.redacted dd → dd ≠ "") ∧
    (∀ t s, TBlock.thinking "" "sig" = TBlock.thinking t s →
      some s ∈
        [ChunkCall.mk "" false false Option.none (some "sig") Option.none].map
          (fun a => a.thinking_signature)) :=
  claim_C7 [ChunkCall.mk "" false false Option.none (some "sig") Option.none]
    (TBlock.thinking "" "sig") (by decide)

/-- C7 counterexample: a signature delta carrying the **empty** signature is
committed as-is (`thinking_signature is not None` is the only guard), so
`get_thinking_blocks` exports a `thinking` block whose signature is empty —
contradicting the claim that every exported thinking block carries a
non-empty signature. -/
theorem claim_C7_counterexample :
    get_thinking_blocks (runChunkCalls
        [ChunkCall.mk "" false false Option.none (some "") Option.none]) =
      [TBlock.thinking "" ""] := by
  decide

/-- `strConcat` distributes over list append. -/
theorem strConcat_append (a b : List String) :
    strConcat (a ++ b) = strConcat a ++ strConcat b := by
  induction a with
  | nil => rfl
  | cons s rest ih =>
    show s ++ strConcat (rest ++ b) = (s ++ strConcat rest) ++ strConcat b
    rw [ih, String.append_assoc]

/-- A text chunk delivered with default arguments is appended verbatim to
`current_response` (the h1-to-h2 rewriting affects only the view output). -/
theorem append_chunk_response (st : HandlerState) (c : String) :
    (append_chunk st c false false Option.none Option.none
        Option.none).current_response = st.current_response ++ c := by
  show (appendChunkText st c false false).current_response = _
  unfold appendChunkText
  by_cases hc : c = ""
  · subst hc
    simp [String.append_empty]
  · simp [hc, processChars_response]

/-- Delivering a chunk list with default arguments accumulates exactly their
concatenation in `current_response`. -/
theorem deliver_chunks_response (chunks : List String) (st : HandlerState) :
    (deliver_chunks st chunks).current_response =
      st.current_response ++ strConcat chunks := by
  induction chunks generalizing st with
  | nil => simp [deliver_chunks, strConcat, String.append_empty]
  | cons c rest ih =>
    show (deliver_chunks (append_chunk st c false false Option.none Option.none
        Option.none) rest).current_response = _
    rw [ih, append_chunk_response, strConcat, String.append_assoc]

/-- Per-frame case analysis: a typed frame either contributes nothing to
both sides, or is a `text_delta` whose chunk concatenation equals its `text`
field. -/
theorem frame_text_case (f : SSEFrame)
    (hf : ∀ d, f.delta = some d → d.ty ≠ Option.none) :
    (tdField f = Option.none ∧ frame_text_chunks f = []) ∨
    (∃ t, tdField f = some t ∧ strConcat (frame_text_chunks f) = t) := by
  cases hd : f.delta with
  | none => exact Or.inl ⟨by simp [tdField, hd], by simp [frame_text_chunks, hd]⟩
  | some d =>
    have hne := hf d hd
    cases hty : d.ty with
    | none => exact absurd hty hne
    | some tystr =>
      by_cases hts : tystr = "text_delta"
      · subst hts
        cases htext : d.text with
        | none => exact Or.inl ⟨by simp [tdField, hd, hty, htext], by simp [frame_text_chunks, hd, htext]⟩
        | some t =>
          refine Or.inr ⟨t, by simp [tdField, hd, hty, htext], ?_⟩
          by_cases ht : t = ""
          · subst ht
            simp [frame_text_chunks, hd, hty, htext, strConcat]
          · simp [frame_text_chunks, hd, hty, htext, ht, strConcat, String.append_empty]
      · refine Or.inl ⟨by simp [tdField, hd, hty, hts], ?_⟩
        cases htext : d.text with
        | none => simp [frame_text_chunks, hd, htext]
        | some t => simp [frame_text_chunks, hd, hty, htext, hts]

/-- C8: for every frame sequence whose deltas carry a `type` tag, the
concatenation of the text chunks delivered to the sink from `text_delta`
events equals the concatenation of those deltas' `text` fields in arrival
order, and `get_response_content` after delivering those chunks to a fresh
handler returns exactly that concatenation. -/
theorem claim_C8 (frames : List SSEFrame)
    (htyped : ∀ f ∈ frames, ∀ d, f.delta = some d → d.ty ≠ Option.none) :
    strConcat (emitted_text_chunks frames) = strConcat (text_delta_fields frames) ∧
    get_response_content (deliver_chunks initHandlerState (emitted_text_chunks frames)) =
      strConcat (emitted_text_chunks frames) := by
  constructor
  · induction frames with
    | nil => rfl
    | cons f rest ih =>
      have hf := htyped f (List.mem_cons_self f rest)
      have ihh := ih (fun g hg d hd => htyped g (List.mem_cons_of_mem f hg) d hd)
      simp only [emitted_text_chunks, text_delta_fields, List.map_cons, List.flatten_cons,
        List.filterMap_cons] at ihh ⊢
      rw [strConcat_append]
      rcases frame_text_case f hf with ⟨hnone, hchunks⟩ | ⟨t, hsome, hchunks⟩
      · rw [hnone, hchunks]
        simpa [strConcat] using ihh
      · rw [hsome, hchunks]
        simp only [strConcat]
        rw [ihh]
  · show (deliver_chunks initHandlerState (emitted_text_chunks frames)).current_response = _
    rw [deliver_chunks_response]
    rfl

/-- C8 witness: the theorem applied to a concrete two-frame stream
(`"Hello"` then `" world"`). -/
theorem claim_C8_witness :
    strConcat (emitted_text_chunks
        [SSEFrame.mk "content_block_delta" (some (SSEDelta.mk (some "text_delta") (some "Hello"))),
         SSEFrame.mk "content_block_delta" (some (SSEDelta.mk (some "text_delta") (some " world")))]) =
      strConcat (text_delta_fields
        [SSEFrame.mk "content_block_delta" (some (SSEDelta.mk (some "text_delta") (some "Hello"))),
         SSEFrame.mk "content_block_delta" (some (SSEDelta.mk (some "text_delta") (some " world")))]) ∧
    get_response_content (deliver_chunks initHandlerState (emitted_text_chunks
        [SSEFrame.mk "content_block_delta" (some (SSEDelta.mk (some "text_delta") (some "Hello"))),
         SSEFrame.mk "content_block_delta" (some (SSEDelta.mk (some "text_delta") (some " world")))])) =
      strConcat (emitted_text_chunks
        [SSEFrame.mk "content_block_delta" (some (SSEDelta.mk (some "text_delta") (some "Hello"))),
         SSEFrame.mk "content_block_delta" (some (SSEDelta.mk (some "text_delta") (some " world")))]) :=
  claim_C8
    [SSEFrame.mk "content_block_delta" (some (SSEDelta.mk (some "text_delta") (some "Hello"))),
     SSEFrame.mk "content_block_delta" (some (SSEDelta.mk (some "text_delta") (some " world")))]
    (by
      intro f hf d hd
      simp only [List.mem_cons, List.not_mem_nil, or_false] at hf
      rcases hf with rfl | rfl <;>
        (injection hd with h; subst h; simp))

/-- C1: on a resolvable path to an existing in-sandbox file,
`execute_str_replace` succeeds and writes the single-replacement content iff
`old_str` occurs exactly once; zero or multiple occurrences produce an error
result and leave the filesystem unchanged. -/
theorem claim_C1 (fs : PyFS) (allowed_roots : List String)
    (context_files : List (String × CtxFileInfo)) (window : Option (List (Option String)))
    (path rp content old new : String)
    (hres : resolve_path fs (PyVal.str path) allowed_roots context_files window =
      Except.ok rp)
    (hfile : fs.files.lookup rp = some content)
    (hroot : ensure_under_root rp allowed_roots = true) :
    (countOcc content.data old.data = 1 →
      execute_str_replace fs (PyVal.str path) (PyVal.str old) (PyVal.str new)
          allowed_roots context_files window =
        Except.ok ("Successfully replaced text at exactly one location.", false,
          writeFile fs rp (String.mk (replaceOnce content.data old.data new.data)))) ∧
    (countOcc content.data old.data = 0 →
      execute_str_replace fs (PyVal.str path) (PyVal.str old) (PyVal.str new)
          allowed_roots context_files window =
        Except.ok
          ("Error: No match found for replacement. Please check your text and try again.",
           true, fs)) ∧
    (countOcc content.data old.data > 1 →
      execute_str_replace fs (PyVal.str path) (PyVal.str old) (PyVal.str new)
          allowed_roots context_files window =
        Except.ok
          ("Error: Found " ++ toString (countOcc content.data old.data) ++
             " matches for replacement text. Please provide more context to make a unique match.",
           true, fs)) := by
  have hisf : isfile fs rp = true := by simp [isfile, hfile]
  refine ⟨?_, ?_, ?_⟩ <;> intro hc
  · simp [execute_str_replace, hres, hisf, hroot, hfile, hc]
  · simp [execute_str_replace, hres, hisf, hroot, hfile, hc]
  · have h0 : countOcc content.data old.data ≠ 0 := by omega
    simp [execute_str_replace, hres, hisf, hroot, hfile, h0, hc]

/-- C1 witness: the spec's two examples — `"ab ab"` with `old="ab"` errors
with 2 matches and performs no write; `"a unique b"` with `old="unique"`
replaces exactly once. -/
theorem claim_C1_witness :
    execute_str_replace fsProj (PyVal.str "/proj/a.txt") (PyVal.str "ab") (PyVal.str "X")
        ["/proj"] [] Option.none =
      Except.ok
        ("Error: Found 2 matches for replacement text. Please provide more context to make a unique match.",
         true, fsProj) ∧
    execute_str_replace fsProj (PyVal.str "/proj/b.txt") (PyVal.str "unique") (PyVal.str "X")
        ["/proj"] [] Option.none =
      Except.ok ("Successfully replaced text at exactly one location.", false,
        writeFile fsProj "/proj/b.txt" (String.mk (replaceOnce "a unique b".data
          "unique".data "X".data))) :=
  ⟨((claim_C1 fsProj ["/proj"] [] Option.none "/proj/a.txt" "/proj/a.txt" "ab ab" "ab" "X"
        (by decide) (by decide) (by decide)).2.2 (by decide)).trans (by decide),
   (claim_C1 fsProj ["/proj"] [] Option.none "/proj/b.txt" "/proj/b.txt" "a unique b"
        "unique" "X" (by decide) (by decide) (by decide)).1 (by decide)⟩

/-- `splitSlash` always produces at least one piece. -/
theorem splitSlash_ne_nil (cs : List Char) : splitSlash cs ≠ [] := by
  induction cs with
  | nil => simp [splitSlash]
  | cons c rest ih =>
    rw [splitSlash]
    by_cases h : c = '/'
    · simp [h]
    · simp only [h, if_false]
      cases hs : splitSlash rest with
      | nil => simp
      | cons p ps => simp

/-- `listInfixOf` decides the infix relation. -/
theorem listInfixOf_iff (pat s : List Char) : listInfixOf pat s = true ↔ pat <:+: s := by
  induction s with
  | nil =>
    simp [listInfixOf, List.isEmpty_iff, List.infix_nil]
  | cons c rest ih =>
    rw [listInfixOf]
    rw [List.infix_cons_iff]
    simp [List.isPrefixOf_iff_prefix, ih]

/-- A `".."` segment of `cs` shows up either as a leading `".."` or as a
`"/.."` substring; a `".."` segment beyond the first is always a `"/.."`
substring. -/
theorem splitSlash_dotdot (cs : List Char) :
    (['.', '.'] ∈ splitSlash cs → ['.', '.'] <+: cs ∨ ['/', '.', '.'] <:+: cs) ∧
    (['.', '.'] ∈ (splitSlash cs).tail → ['/', '.', '.'] <:+: cs) := by
  induction cs with
  | nil =>
    constructor
    · intro h
      simp [splitSlash] at h
    · intro h
      simp [splitSlash] at h
  | cons c rest ih =>
    by_cases hc : c = '/'
    · subst hc
      have step : ['.', '.'] ∈ splitSlash rest → ['/', '.', '.'] <:+: '/' :: rest := by
        intro hmem
        rcases ih.1 hmem with hpre | hinf
        · rcases hpre with ⟨t, ht⟩
          exact ⟨[], t, by simp [← ht]⟩
        · exact hinf.trans (List.suffix_cons '/' rest).isInfix
      constructor
      · intro h
        rw [splitSlash] at h
        simp only [if_pos rfl] at h
        rcases List.mem_cons.mp h with heq | hmem
        · exact absurd heq.symm (by simp)
        · exact Or.inr (step hmem)
      · intro h
        rw [splitSlash] at h
        simp only [if_pos rfl, List.tail_cons] at h
        exact step h
    · obtain ⟨p, ps, hs⟩ : ∃ p ps, splitSlash rest = p :: ps := by
        cases h' : splitSlash rest with
        | nil => exact absurd h' (splitSlash_ne_nil rest)
        | cons p ps => exact ⟨p, ps, rfl⟩
      have hsplit : splitSlash (c :: rest) = (c :: p) :: ps := by
        rw [splitSlash]
        simp [hc, hs]
      have tailcase : ['.', '.'] ∈ ps → ['/', '.', '.'] <:+: c :: rest := by
        intro hmem
        have : ['.', '.'] ∈ (splitSlash rest).tail := by rw [hs]; exact hmem
        exact (ih.2 this).trans (List.suffix_cons c rest).isInfix
      constructor
      · intro h
        rw [hsplit] at h
        rcases List.mem_cons.mp h with heq | hmem
        · left
          have hcp : c = '.' ∧ p = ['.'] := by
            injection heq.symm with h1 h2
            exact ⟨h1, h2⟩
          obtain ⟨rfl, rfl⟩ := hcp
          cases rest with
          | nil => simp [splitSlash] at hs
          | cons d r =>
            by_cases hd : d = '/'
            · subst hd
              rw [splitSlash] at hs
              simp at hs
            · rw [splitSlash] at hs
              simp only [hd, if_false] at hs
              obtain ⟨p', ps', hs'⟩ : ∃ p' ps', splitSlash r = p' :: ps' := by
                cases h' : splitSlash r with
                | nil => exact absurd h' (splitSlash_ne_nil r)
                | cons x xs => exact ⟨x, xs, rfl⟩
              rw [hs'] at hs
              have hd2 : d = '.' := by
                have := congrArg List.head? hs
                simp at this
                exact this.1
              subst hd2
              exact ⟨r, rfl⟩
        · exact Or.inr (tailcase hmem)
      · intro h
        rw [hsplit] at h
        simp only [List.tail_cons] at h
        exact tailcase h

/-- From `hasDotDotSegment s` to membership of the raw `".."` piece. -/
theorem hasDotDotSegment_mem {s : String} (h : hasDotDotSegment s = true) :
    ['.', '.'] ∈ splitSlash s.data := by
  unfold hasDotDotSegment at h
  have h' := List.mem_of_elem_eq_true h
  rcases List.mem_map.mp h' with ⟨a, ha, hmk⟩
  have : a = ['.', '.'] := by
    have := congrArg String.data hmk
    simpa using this
  rwa [this] at ha

/-- The source's traversal test fires on every path whose normalized form
still contains a `".."` segment. -/
theorem traversal_check_fires {s : String} (h : hasDotDotSegment s = true) :
    (strStartsWith s ".." || strContains s "/.." || strContains s "\\..") = true := by
  rcases (splitSlash_dotdot s.data).1 (hasDotDotSegment_mem h) with hpre | hinf
  · have : strStartsWith s ".." = true := by
      unfold strStartsWith
      rw [List.isPrefixOf_iff_prefix]
      exact hpre
    simp [this]
  · have : strContains s "/.." = true := by
      unfold strContains
      rw [listInfixOf_iff]
      exact hinf
    simp [this]

/-- C2: `resolve_path` first rejects empty/blank input; then it normalizes
and rejects with a traversal error whenever the normalized form still
contains a `".."` segment; in particular `"../etc/passwd"` against root
`"/proj"` is a traversal error, while `"/proj/sub/../x.txt"` is accepted as
`"/proj/x.txt"` because normalization removes the traversal before the
containment check. -/
theorem claim_C2 (p : String) (roots : List String)
    (ctx : List (String × CtxFileInfo)) (w : Option (List (Option String))) (fs : PyFS) :
    (pyStrip p = "" →
      resolve_path fs (PyVal.str p) roots ctx w = Except.error "Error: Invalid path.") ∧
    (pyStrip p ≠ "" → hasDotDotSegment (pyNormpath (pyStrip p)) = true →
      resolve_path fs (PyVal.str p) roots ctx w =
        Except.error "Error: Path traversal is not allowed.") ∧
    resolve_path fsProj (PyVal.str "../etc/passwd") ["/proj"] [] Option.none =
      Except.error "Error: Path traversal is not allowed." ∧
    resolve_path fsProj (PyVal.str "/proj/sub/../x.txt") ["/proj"] [] Option.none =
      Except.ok "/proj/x.txt" := by
  refine ⟨?_, ?_, by rfl, by rfl⟩
  · intro hstrip
    by_cases hp : p = ""
    · simp [resolve_path, hp]
    · simp [resolve_path, hp, hstrip]
  · intro hstrip hseg
    have hp : p ≠ "" := by
      intro h
      rw [h] at hstrip
      exact hstrip rfl
    have hcond := traversal_check_fires hseg
    simp [resolve_path, hp, hstrip, hcond]

/-- C2 witness: the theorem applied at blank input and at
`"../etc/passwd"`. -/
theorem claim_C2_witness :
    resolve_path fsProj (PyVal.str "  ") ["/proj"] [] Option.none =
      Except.error "Error: Invalid path." ∧
    resolve_path fsProj (PyVal.str "../etc/passwd") ["/proj"] [] Option.none =
      Except.error "Error: Path traversal is not allowed." :=
  ⟨(claim_C2 "  " ["/proj"] [] Option.none fsProj).1 (by rfl),
   (claim_C2 "../etc/passwd" ["/proj"] [] Option.none fsProj).2.1 (by decide) (by rfl)⟩

/-- `execute_view` returns a value on any `view_range` that does not make
`int(...)` raise. -/
theorem execute_view_total (fs : PyFS) (path : PyVal) (roots : List String)
    (vr : PyVal) (mc : Option Int) (ctx : List (String × CtxFileInfo))
    (w : Option (List (Option String))) (h : goodViewRange vr = true) :
    ∃ out, execute_view fs path roots vr mc ctx w = Except.ok out := by
  unfold execute_view
  cases hres : resolve_path fs path roots ctx w with
  | error e => exact ⟨_, rfl⟩
  | ok resolved =>
    dsimp only
    cases hdir : fs.dirs.lookup resolved with
    | some names => exact ⟨_, rfl⟩
    | none =>
      dsimp only
      cases hfile : fs.files.lookup resolved with
      | none => exact ⟨_, rfl⟩
      | some content =>
        dsimp only
        cases vr with
        | list l =>
          by_cases hg : (pyTruthy (PyVal.list l) && decide (l.length ≥ 2)) = true
          · have hl2 : 2 ≤ l.length := by
              have h' := hg
              simp only [Bool.and_eq_true, decide_eq_true_eq] at h'
              exact h'.2
            obtain ⟨v0, v1, rest, rfl⟩ : ∃ v0 v1 rest, l = v0 :: v1 :: rest := by
              match l, hl2 with
              | v0 :: v1 :: rest, _ => exact ⟨v0, v1, rest, rfl⟩
            unfold goodViewRange at h
            dsimp only at h
            rw [if_pos hg] at h
            simp only [Bool.and_eq_true] at h
            obtain ⟨h0, h1⟩ := h
            dsimp only
            rw [if_pos hg]
            have hstep0 : ∃ i0,
                (match v0 with
                 | PyVal.none => Except.ok (1 : Int)
                 | _ => pyInt v0) = Except.ok i0 := by
              cases v0 with
              | none => exact ⟨1, rfl⟩
              | bool b => exact ⟨_, rfl⟩
              | int n => exact ⟨_, rfl⟩
              | float q => exact ⟨_, rfl⟩
              | str s =>
                unfold intableB at h0
                cases hint : pyInt (PyVal.str s) with
                | ok n => exact ⟨n, rfl⟩
                | error e => rw [hint] at h0; exact absurd h0 (by simp)
              | list xs =>
                unfold intableB at h0
                simp [pyInt] at h0
            obtain ⟨i0, hi0⟩ := hstep0
            rw [hi0]
            dsimp only
            have hstep1 : ∃ e1,
                (if pyEqInt v1 (-1) then
                  Except.ok ((pySplitlines content).length : Int)
                 else (pyInt v1).map
                   (fun i => min ((pySplitlines content).length : Int) (max 1 i))) =
                  Except.ok e1 := by
              by_cases hm1 : pyEqInt v1 (-1) = true
              · rw [if_pos hm1]
                exact ⟨_, rfl⟩
              · rw [if_neg (by simpa using hm1)]
                have h1' : intableB v1 = true := by
                  rcases (by simpa using h1 :
                      pyEqInt v1 (-1) = true ∨ intableB v1 = true) with hv1 | hv1
                  · exact absurd hv1 hm1
                  · exact hv1
                unfold intableB at h1'
                cases hint : pyInt v1 with
                | ok n => exact ⟨_, rfl⟩
                | error e => rw [hint] at h1'; exact absurd h1' (by simp)
            obtain ⟨e1, he1⟩ := hstep1
            rw [he1]
            dsimp only
            by_cases hrange :
                (decide (max 1 i0 > e1) ||
                  decide (max 1 i0 > ((pySplitlines content).length : Int))) = true
            · rw [if_pos hrange]
              exact ⟨_, rfl⟩
            · rw [if_neg hrange]
              exact ⟨_, rfl⟩
          · dsimp only
            rw [if_neg hg]
            exact ⟨_, rfl⟩
        | none => exact ⟨_, rfl⟩
        | bool b => exact ⟨_, rfl⟩
        | int n => exact ⟨_, rfl⟩
        | float q => exact ⟨_, rfl⟩
        | str s => exact ⟨_, rfl⟩

/-- `execute_str_replace` returns a value when `old_str`/`new_str` are
strings. -/
theorem execute_str_replace_total (fs : PyFS) (path : PyVal) (o n : String)
    (roots : List String) (ctx : List (String × CtxFileInfo))
    (w : Option (List (Option String))) :
    ∃ out, execute_str_replace fs path (PyVal.str o) (PyVal.str n) roots ctx w =
      Except.ok out := by
  unfold execute_str_replace
  cases hres : resolve_path fs path roots ctx w with
  | error e => exact ⟨_, rfl⟩
  | ok resolved =>
    dsimp only
    by_cases hf : isfile fs resolved = true
    · rw [if_neg (by simp [hf])]
      by_cases hr : ensure_under_root resolved roots = true
      · rw [if_neg (by simp [hr])]
        by_cases h0 : countOcc ((fs.files.lookup resolved).getD "").data o.data = 0
        · rw [if_pos h0]
          exact ⟨_, rfl⟩
        · rw [if_neg h0]
          by_cases h1 : countOcc ((fs.files.lookup resolved).getD "").data o.data > 1
          · rw [if_pos h1]
            exact ⟨_, rfl⟩
          · rw [if_neg h1]
            exact ⟨_, rfl⟩
      · rw [if_pos (by simp [hr])]
        exact ⟨_, rfl⟩
    · rw [if_pos (by simp [hf])]
      exact ⟨_, rfl⟩

/-- `execute_create` returns a value when `file_text` is a string. -/
theorem execute_create_total (fs : PyFS) (path : PyVal) (t : String)
    (roots : List String) (ctx : List (String × CtxFileInfo))
    (w : Option (List (Option String))) :
    ∃ out, execute_create fs path (PyVal.str t) roots ctx w = Except.ok out := by
  unfold execute_create
  cases hres : resolve_path fs path roots ctx w with
  | error e => exact ⟨_, rfl⟩
  | ok resolved =>
    dsimp only
    by_cases he : pyExists fs resolved = true
    · rw [if_pos he]
      exact ⟨_, rfl⟩
    · rw [if_neg he]
      split_ifs <;> exact ⟨_, rfl⟩

/-- `execute_insert` returns a value when `insert_line` converts to an
integer and `insert_text` is a string. -/
theorem execute_insert_total (fs : PyFS) (path il : PyVal) (t : String)
    (roots : List String) (ctx : List (String × CtxFileInfo))
    (w : Option (List (Option String))) (hil : intableB il = true) :
    ∃ out, execute_insert fs path il (PyVal.str t) roots ctx w = Except.ok out := by
  unfold execute_insert
  cases hres : resolve_path fs path roots ctx w with
  | error e => exact ⟨_, rfl⟩
  | ok resolved =>
    dsimp only
    by_cases hf : isfile fs resolved = true
    · rw [if_neg (by simp [hf])]
      by_cases hr : ensure_under_root resolved roots = true
      · rw [if_neg (by simp [hr])]
        unfold intableB at hil
        cases hint : pyInt il with
        | ok n =>
          dsimp only
          split_ifs <;> exact ⟨_, rfl⟩
        | error e => rw [hint] at hil; exact absurd hil (by simp)
      · rw [if_pos (by simp [hr])]
        exact ⟨_, rfl⟩
    · rw [if_pos (by simp [hf])]
      exact ⟨_, rfl⟩

/-- Any value returned by `run_text_editor_tool` is a `tool_result` block
carrying the `tool_use_id` it was invoked with. -/
theorem run_text_editor_tool_id (fs : PyFS) (roots : List String)
    (ctx : List (String × CtxFileInfo)) (w : Option (List (Option String)))
    (mc : Option Int) (id name : String) (ps : List (String × PyVal))
    (r : ToolResult) (fs' : PyFS)
    (h : run_text_editor_tool fs roots ctx w mc id name ps = Except.ok (r, fs')) :
    r.tool_use_id = id ∧ r.type = "tool_result" := by
  unfold run_text_editor_tool at h
  dsimp only at h
  split_ifs at h
  · simp only [Except.ok.injEq, Prod.mk.injEq] at h
    obtain ⟨h1, -⟩ := h
    subst h1
    exact ⟨rfl, rfl⟩
  · revert h
    cases hexec : execute_view fs (pyGet ps "path" (PyVal.str "")) roots
        (pyGet ps "view_range" PyVal.none) mc ctx w with
    | error e => intro h; exact absurd h (by simp)
    | ok out =>
      obtain ⟨c', ie'⟩ := out
      intro h
      simp only [Except.ok.injEq, Prod.mk.injEq] at h
      obtain ⟨h1, -⟩ := h
      subst h1
      exact ⟨rfl, rfl⟩
  · revert h
    cases hexec : execute_str_replace fs (pyGet ps "path" (PyVal.str ""))
        (pyGet ps "old_str" (PyVal.str "")) (pyGet ps "new_str" (PyVal.str ""))
        roots ctx w with
    | error e => intro h; exact absurd h (by simp)
    | ok out =>
      obtain ⟨c', ie', fs2⟩ := out
      intro h
      simp only [Except.ok.injEq, Prod.mk.injEq] at h
      obtain ⟨h1, -⟩ := h
      subst h1
      exact ⟨rfl, rfl⟩
  · revert h
    cases hexec : execute_create fs (pyGet ps "path" (PyVal.str ""))
        (pyGet ps "file_text" (PyVal.str "")) roots ctx w with
    | error e => intro h; exact absurd h (by simp)
    | ok out =>
      obtain ⟨c', ie', fs2⟩ := out
      intro h
      simp only [Except.ok.injEq, Prod.mk.injEq] at h
      obtain ⟨h1, -⟩ := h
      subst h1
      exact ⟨rfl, rfl⟩
  · revert h
    cases hexec : execute_insert fs (pyGet ps "path" (PyVal.str ""))
        (pyGet ps "insert_line" (PyVal.int 0)) (pyGet ps "insert_text" (PyVal.str ""))
        roots ctx w with
    | error e => intro h; exact absurd h (by simp)
    | ok out =>
      obtain ⟨c', ie', fs2⟩ := out
      intro h
      simp only [Except.ok.injEq, Prod.mk.injEq] at h
      obtain ⟨h1, -⟩ := h
      subst h1
      exact ⟨rfl, rfl⟩
  · simp only [Except.ok.injEq, Prod.mk.injEq] at h
    obtain ⟨h1, -⟩ := h
    subst h1
    exact ⟨rfl, rfl⟩

/-- C6 as amended: for every command and all **well-typed** command-specific
fields (`view_range` entries convertible by `int(...)`, `insert_line`
convertible, `old_str`/`new_str`/`file_text`/`insert_text` strings),
`run_text_editor_tool` returns a `tool_result` value
`{type, tool_use_id, content, is_error}` carrying the invocation's
`tool_use_id`, with missing/unknown commands reported as `is_error` values;
malformed numeric fields instead raise (see the counterexample). -/
theorem claim_C6 (fs : PyFS) (roots : List String)
    (ctx : List (String × CtxFileInfo)) (w : Option (List (Option String)))
    (mc : Option Int) (id name : String) (ps : List (String × PyVal))
    (h : wellTypedParams ps = true) :
    exceptOk (run_text_editor_tool fs roots ctx w mc id name ps) = true ∧
    (rttResult (run_text_editor_tool fs roots ctx w mc id name ps)).type = "tool_result" ∧
    (rttResult (run_text_editor_tool fs roots ctx w mc id name ps)).tool_use_id = id ∧
    (pyTruthy (pyGet ps "command" (PyVal.str "")) = false →
      rttResult (run_text_editor_tool fs roots ctx w mc id name ps) =
        { type := "tool_result", tool_use_id := id,
          content := "Error: Missing command.", is_error := true }) ∧
    (pyTruthy (pyGet ps "command" (PyVal.str "")) = true →
      pyEqStr (pyGet ps "command" (PyVal.str "")) "view" = false →
      pyEqStr (pyGet ps "command" (PyVal.str "")) "str_replace" = false →
      pyEqStr (pyGet ps "command" (PyVal.str "")) "create" = false →
      pyEqStr (pyGet ps "command" (PyVal.str "")) "insert" = false →
      rttResult (run_text_editor_tool fs roots ctx w mc id name ps) =
        { type := "tool_result", tool_use_id := id,
          content := "Error: Unknown command " ++ sq ++
            pyStrOf (pyGet ps "command" (PyVal.str "")) ++ sq ++ ".",
          is_error := true }) := by
  unfold wellTypedParams at h
  by_cases ht : pyTruthy (pyGet ps "command" (PyVal.str "")) = true
  · by_cases hview : pyEqStr (pyGet ps "command" (PyVal.str "")) "view" = true
    · rw [if_pos hview] at h
      obtain ⟨out, hout⟩ :=
        execute_view_total fs (pyGet ps "path" (PyVal.str "")) roots
          (pyGet ps "view_range" PyVal.none) mc ctx w h
      obtain ⟨c', ie'⟩ := out
      have hrun : run_text_editor_tool fs roots ctx w mc id name ps =
          Except.ok ({ type := "tool_result", tool_use_id := id, content := c',
                       is_error := ie' }, fs) := by
        unfold run_text_editor_tool
        dsimp only
        rw [if_neg (by simp [ht]), if_pos hview, hout]
      rw [hrun]
      exact ⟨rfl, rfl, rfl, fun hf => absurd ht (by simp [hf]),
        fun _ hf _ _ _ => absurd hview (by simp [hf])⟩
    · rw [if_neg (by simpa using hview)] at h
      by_cases hsr : pyEqStr (pyGet ps "command" (PyVal.str "")) "str_replace" = true
      · rw [if_pos hsr] at h
        simp only [Bool.and_eq_true] at h
        obtain ⟨ho, hn⟩ := h
        obtain ⟨o, hov⟩ : ∃ o, pyGet ps "old_str" (PyVal.str "") = PyVal.str o := by
          cases hv : pyGet ps "old_str" (PyVal.str "") <;>
            rw [hv] at ho <;> first | exact ⟨_, rfl⟩ | exact absurd ho (by simp [isStrPV])
        obtain ⟨n, hnv⟩ : ∃ n, pyGet ps "new_str" (PyVal.str "") = PyVal.str n := by
          cases hv : pyGet ps "new_str" (PyVal.str "") <;>
            rw [hv] at hn <;> first | exact ⟨_, rfl⟩ | exact absurd hn (by simp [isStrPV])
        obtain ⟨out, hout⟩ :=
          execute_str_replace_total fs (pyGet ps "path" (PyVal.str "")) o n roots ctx w
        obtain ⟨c', ie', fs2⟩ := out
        have hrun : run_text_editor_tool fs roots ctx w mc id name ps =
            Except.ok ({ type := "tool_result", tool_use_id := id, content := c',
                         is_error := ie' }, fs2) := by
          unfold run_text_editor_tool
          dsimp only
          rw [if_neg (by simp [ht]), if_neg (by simpa using hview), if_pos hsr, hov, hnv,
            hout]
        rw [hrun]
        exact ⟨rfl, rfl, rfl, fun hf => absurd ht (by simp [hf]),
          fun _ _ hf _ _ => absurd hsr (by simp [hf])⟩
      · rw [if_neg (by simpa using hsr)] at h
        by_cases hcr : pyEqStr (pyGet ps "command" (PyVal.str "")) "create" = true
        · rw [if_pos hcr] at h
          obtain ⟨t, htv⟩ : ∃ t, pyGet ps "file_text" (PyVal.str "") = PyVal.str t := by
            cases hv : pyGet ps "file_text" (PyVal.str "") <;>
              rw [hv] at h <;> first | exact ⟨_, rfl⟩ | exact absurd h (by simp [isStrPV])
          obtain ⟨out, hout⟩ :=
            execute_create_total fs (pyGet ps "path" (PyVal.str "")) t roots ctx w
          obtain ⟨c', ie', fs2⟩ := out
          have hrun : run_text_editor_tool fs roots ctx w mc id name ps =
              Except.ok ({ type := "tool_result", tool_use_id := id, content := c',
                           is_error := ie' }, fs2) := by
            unfold run_text_editor_tool
            dsimp only
            rw [if_neg (by simp [ht]), if_neg (by simpa using hview),
              if_neg (by simpa using hsr), if_pos hcr, htv, hout]
          rw [hrun]
          exact ⟨rfl, rfl, rfl, fun hf => absurd ht (by simp [hf]),
            fun _ _ _ hf _ => absurd hcr (by simp [hf])⟩
        · rw [if_neg (by simpa using hcr)] at h
          by_cases hin : pyEqStr (pyGet ps "command" (PyVal.str "")) "insert" = true
          · rw [if_pos hin] at h
            simp only [Bool.and_eq_true] at h
            obtain ⟨hil, hit⟩ := h
            obtain ⟨t, htv⟩ : ∃ t, pyGet ps "insert_text" (PyVal.str "") = PyVal.str t := by
              cases hv : pyGet ps "insert_text" (PyVal.str "") <;>
                rw [hv] at hit <;>
                  first | exact ⟨_, rfl⟩ | exact absurd hit (by simp [isStrPV])
            obtain ⟨out, hout⟩ :=
              execute_insert_total fs (pyGet ps "path" (PyVal.str ""))
                (pyGet ps "insert_line" (PyVal.int 0)) t roots ctx w hil
            obtain ⟨c', ie', fs2⟩ := out
            have hrun : run_text_editor_tool fs roots ctx w mc id name ps =
                Except.ok ({ type := "tool_result", tool_use_id := id, content := c',
                             is_error := ie' }, fs2) := by
              unfold run_text_editor_tool
              dsimp only
              rw [if_neg (by simp [ht]), if_neg (by simpa using hview),
                if_neg (by simpa using hsr), if_neg (by simpa using hcr), if_pos hin, htv,
                hout]
            rw [hrun]
            exact ⟨rfl, rfl, rfl, fun hf => absurd ht (by simp [hf]),
              fun _ _ _ _ hf => absurd hin (by simp [hf])⟩
          · have hrun : run_text_editor_tool fs roots ctx w mc id name ps =
                Except.ok ({ type := "tool_result", tool_use_id := id,
                             content := "Error: Unknown command " ++ sq ++
                               pyStrOf (pyGet ps "command" (PyVal.str "")) ++ sq ++ ".",
                             is_error := true }, fs) := by
              unfold run_text_editor_tool
              dsimp only
              rw [if_neg (by simp [ht]), if_neg (by simpa using hview),
                if_neg (by simpa using hsr), if_neg (by simpa using hcr),
                if_neg (by simpa using hin)]
            rw [hrun]
            exact ⟨rfl, rfl, rfl, fun hf => absurd ht (by simp [hf]), fun _ _ _ _ _ => rfl⟩
  · have hrun : run_text_editor_tool fs roots ctx w mc id name ps =
        Except.ok ({ type := "tool_result", tool_use_id := id,
                     content := "Error: Missing command.", is_error := true }, fs) := by
      unfold run_text_editor_tool
      dsimp only
      rw [if_pos (by simpa using ht)]
    rw [hrun]
    exact ⟨rfl, rfl, rfl, fun _ => rfl, fun hf => absurd hf ht⟩

/-- C6 witness: the amended theorem applied to an unknown command with
well-typed fields — the failure is a value with `is_error` set. -/
theorem claim_C6_witness :
    wellTypedParams [("command", PyVal.str "frobnicate")] = true ∧
    rttResult (run_text_editor_tool fsProj ["/proj"] [] Option.none Option.none "tu9" "ed"
        [("command", PyVal.str "frobnicate")]) =
      { type := "tool_result", tool_use_id := "tu9",
        content := "Error: Unknown command " ++ sq ++
          pyStrOf (pyGet [("command", PyVal.str "frobnicate")] "command" (PyVal.str "")) ++
          sq ++ ".",
        is_error := true } :=
  ⟨by decide,
   (claim_C6 fsProj ["/proj"] [] Option.none Option.none "tu9" "ed"
       [("command", PyVal.str "frobnicate")] (by decide)).2.2.2.2 (by decide) (by decide)
     (by decide) (by decide) (by decide)⟩

/-- C6 counterexample: a malformed `view_range` (`["abc", 2]`) makes
`int(view_range[0])` raise `ValueError`, which escapes
`run_text_editor_tool` — contradicting the claim that no exception crosses
the tool boundary for any `input_params`. -/
theorem claim_C6_counterexample :
    run_text_editor_tool fsProj ["/proj"] [] Option.none Option.none "tu1" "ed"
        [("command", PyVal.str "view"), ("path", PyVal.str "/proj/f.txt"),
         ("view_range", PyVal.list [PyVal.str "abc", PyVal.int 2])] =
      Except.error "ValueError" := by
  rfl

/-- `run_text_editor_tool` returns a value on well-typed parameters. -/
theorem run_text_editor_tool_total (fs : PyFS) (roots : List String)
    (ctx : List (String × CtxFileInfo)) (w : Option (List (Option String)))
    (mc : Option Int) (id name : String) (ps : List (String × PyVal))
    (h : wellTypedParams ps = true) :
    ∃ r fs', run_text_editor_tool fs roots ctx w mc id name ps = Except.ok (r, fs') := by
  unfold wellTypedParams at h
  unfold run_text_editor_tool
  dsimp only
  by_cases ht : pyTruthy (pyGet ps "command" (PyVal.str "")) = true
  · rw [if_neg (by simp [ht])]
    by_cases hview : pyEqStr (pyGet ps "command" (PyVal.str "")) "view" = true
    · rw [if_pos hview] at h ⊢
      obtain ⟨out, hout⟩ :=
        execute_view_total fs (pyGet ps "path" (PyVal.str "")) roots
          (pyGet ps "view_range" PyVal.none) mc ctx w h
      obtain ⟨c', ie'⟩ := out
      rw [hout]
      exact ⟨_, _, rfl⟩
    · rw [if_neg (by simpa using hview)] at h
      rw [if_neg hview]
      by_cases hsr : pyEqStr (pyGet ps "command" (PyVal.str "")) "str_replace" = true
      · rw [if_pos hsr] at h
        rw [if_pos hsr]
        simp only [Bool.and_eq_true] at h
        obtain ⟨ho, hn⟩ := h
        obtain ⟨o, hov⟩ : ∃ o, pyGet ps "old_str" (PyVal.str "") = PyVal.str o := by
          cases hv : pyGet ps "old_str" (PyVal.str "") <;>
            rw [hv] at ho <;> first | exact ⟨_, rfl⟩ | exact absurd ho (by simp [isStrPV])
        obtain ⟨n, hnv⟩ : ∃ n, pyGet ps "new_str" (PyVal.str "") = PyVal.str n := by
          cases hv : pyGet ps "new_str" (PyVal.str "") <;>
            rw [hv] at hn <;> first | exact ⟨_, rfl⟩ | exact absurd hn (by simp [isStrPV])
        rw [hov, hnv]
        obtain ⟨out, hout⟩ :=
          execute_str_replace_total fs (pyGet ps "path" (PyVal.str "")) o n roots ctx w
        obtain ⟨c', ie', fs2⟩ := out
        rw [hout]
        exact ⟨_, _, rfl⟩
      · rw [if_neg (by simpa using hsr)] at h
        rw [if_neg hsr]
        by_cases hcr : pyEqStr (pyGet ps "command" (PyVal.str "")) "create" = true
        · rw [if_pos hcr] at h
          rw [if_pos hcr]
          obtain ⟨t, htv⟩ : ∃ t, pyGet ps "file_text" (PyVal.str "") = PyVal.str t := by
            cases hv : pyGet ps "file_text" (PyVal.str "") <;>
              rw [hv] at h <;> first | exact ⟨_, rfl⟩ | exact absurd h (by simp [isStrPV])
          rw [htv]
          obtain ⟨out, hout⟩ :=
            execute_create_total fs (pyGet ps "path" (PyVal.str "")) t roots ctx w
          obtain ⟨c', ie', fs2⟩ := out
          rw [hout]
          exact ⟨_, _, rfl⟩
        · rw [if_neg (by simpa using hcr)] at h
          rw [if_neg hcr]
          by_cases hin : pyEqStr (pyGet ps "command" (PyVal.str "")) "insert" = true
          · rw [if_pos hin] at h
            rw [if_pos hin]
            simp only [Bool.and_eq_true] at h
            obtain ⟨hil, hit⟩ := h
            obtain ⟨t, htv⟩ : ∃ t, pyGet ps "insert_text" (PyVal.str "") = PyVal.str t := by
              cases hv : pyGet ps "insert_text" (PyVal.str "") <;>
                rw [hv] at hit <;>
                  first | exact ⟨_, rfl⟩ | exact absurd hit (by simp [isStrPV])
            rw [htv]
            obtain ⟨out, hout⟩ :=
              execute_insert_total fs (pyGet ps "path" (PyVal.str ""))
                (pyGet ps "insert_line" (PyVal.int 0)) t roots ctx w hil
            obtain ⟨c', ie', fs2⟩ := out
            rw [hout]
            exact ⟨_, _, rfl⟩
          · rw [if_neg hin]
            exact ⟨_, _, rfl⟩
  · rw [if_pos (by simpa using ht)]
    exact ⟨_, _, rfl⟩

/-- The tool-use block loop, on well-typed blocks: it returns the filtered
assistant blocks, one `tool_result` per `tool_use` block in order (each a
correctly-correlated `tool_result`), and the final filesystem. -/
theorem run_tool_blocks_ok (roots : List String) (ctx : List (String × CtxFileInfo))
    (w : Option (List (Option String))) (mc : Option Int) (content : List RespBlock) :
    ∀ fs, wellTypedBlocks content = true →
      ∃ ac trs fs', run_tool_blocks roots ctx w mc fs content = Except.ok (ac, trs, fs') ∧
        ac = content.filter RespBlock.keptInAssistant ∧
        trs.map (fun r => r.tool_use_id) = content.filterMap RespBlock.toolUseId ∧
        trs.length = (content.filter RespBlock.isToolUse).length ∧
        ∀ r ∈ trs, r.type = "tool_result" := by
  induction content with
  | nil =>
    intro fs _
    exact ⟨[], [], fs, rfl, rfl, rfl, rfl, by simp⟩
  | cons b rest ih =>
    intro fs h
    have hb : wellTypedBlock b = true ∧ wellTypedBlocks rest = true := by
      simpa [wellTypedBlocks, Bool.and_eq_true] using h
    cases b with
    | text t =>
      obtain ⟨ac, trs, fs', hrun, hac, hmap, hlen, htype⟩ := ih fs hb.2
      refine ⟨(if t ≠ "" then RespBlock.text t :: ac else ac), trs, fs', ?_, ?_, ?_, ?_,
        htype⟩
      · rw [run_tool_blocks, hrun]
      · by_cases htt : t = ""
        · subst htt
          simp [List.filter_cons, RespBlock.keptInAssistant, hac]
        · simp [List.filter_cons, RespBlock.keptInAssistant, htt, hac]
      · simp [List.filterMap_cons, RespBlock.toolUseId, hmap]
      · simp [List.filter_cons, RespBlock.isToolUse, hlen]
    | toolUse id name inp =>
      have hwt : wellTypedParams inp = true := hb.1
      obtain ⟨r, fs1, hrun1⟩ :=
        run_text_editor_tool_total fs roots ctx w mc id name inp hwt
      obtain ⟨hid, htypeR⟩ :=
        run_text_editor_tool_id fs roots ctx w mc id name inp r fs1 hrun1
      obtain ⟨ac, trs, fs', hrun, hac, hmap, hlen, htype⟩ := ih fs1 hb.2
      refine ⟨RespBlock.toolUse id name inp :: ac, r :: trs, fs', ?_, ?_, ?_, ?_, ?_⟩
      · rw [run_tool_blocks, hrun1]
        dsimp only
        rw [hrun]
      · simp [List.filter_cons, RespBlock.keptInAssistant, hac]
      · simp [List.filterMap_cons, RespBlock.toolUseId, hmap, hid]
      · simp [List.filter_cons, RespBlock.isToolUse, hlen]
      · intro r' hr'
        rcases List.mem_cons.mp hr' with rfl | hmem
        · exact htypeR
        · exact htype r' hmem
    | other ty =>
      obtain ⟨ac, trs, fs', hrun, hac, hmap, hlen, htype⟩ := ih fs hb.2
      refine ⟨ac, trs, fs', ?_, ?_, ?_, ?_, htype⟩
      · rw [run_tool_blocks]
        exact hrun
      · simp [List.filter_cons, RespBlock.keptInAssistant, hac]
      · simp [List.filterMap_cons, RespBlock.toolUseId, hmap]
      · simp [List.filter_cons, RespBlock.isToolUse, hlen]

/-- C4 as amended: for every `tool_use` response whose tool inputs are
well typed, the loop body invokes the executor once per `tool_use` block in
response order, appends one assistant message with the (nonempty) text and
`tool_use` blocks, and appends one user message with exactly N `tool_result`
blocks in the same order, each carrying the `tool_use_id` of the block it
answers; a raising tool input instead aborts the whole turn (see the
counterexample). -/
theorem claim_C4 (roots : List String) (ctx : List (String × CtxFileInfo))
    (w : Option (List (Option String))) (mc : Option Int) (fs : PyFS)
    (current : List ApiMessage) (content : List RespBlock)
    (h : wellTypedBlocks content = true) :
    exceptOk (run_tool_blocks roots ctx w mc fs content) = true ∧
    rtbAC (run_tool_blocks roots ctx w mc fs content) =
      content.filter RespBlock.keptInAssistant ∧
    (rtbTRS (run_tool_blocks roots ctx w mc fs content)).map (fun r => r.tool_use_id) =
      content.filterMap RespBlock.toolUseId ∧
    (rtbTRS (run_tool_blocks roots ctx w mc fs content)).length =
      (content.filter RespBlock.isToolUse).length ∧
    (∀ r ∈ rtbTRS (run_tool_blocks roots ctx w mc fs content), r.type = "tool_result") ∧
    tool_loop_step roots ctx w mc fs current content =
      Except.ok
        (current ++
          [{ role := "assistant",
             content := MsgContent.ofBlocks
               (rtbAC (run_tool_blocks roots ctx w mc fs content)) },
           { role := "user",
             content := MsgContent.ofToolResults
               (rtbTRS (run_tool_blocks roots ctx w mc fs content)) }],
         rtbFS fs (run_tool_blocks roots ctx w mc fs content)) := by
  obtain ⟨ac, trs, fs', hrun, hac, hmap, hlen, htype⟩ :=
    run_tool_blocks_ok roots ctx w mc content fs h
  rw [hrun]
  refine ⟨rfl, hac, hmap, hlen, htype, ?_⟩
  unfold tool_loop_step
  rw [hrun]
  rfl

/-- C4 witness: the theorem applied to a response with two well-typed
`tool_use` blocks (and one text block) — the user turn carries exactly the
two `tool_result`s, in order, with matching ids. -/
theorem claim_C4_witness :
    (rtbTRS (run_tool_blocks ["/proj"] [] Option.none Option.none fsProj
        [RespBlock.toolUse "tu1" "str_replace_based_edit_tool"
           [("command", PyVal.str "view"), ("path", PyVal.str "/proj/f.txt")],
         RespBlock.text "working",
         RespBlock.toolUse "tu2" "str_replace_based_edit_tool"
           [("command", PyVal.str "view"), ("path", PyVal.str "/proj/a.txt")]])).map
        (fun r => r.tool_use_id) = ["tu1", "tu2"] ∧
    exceptOk (run_tool_blocks ["/proj"] [] Option.none Option.none fsProj
        [RespBlock.toolUse "tu1" "str_replace_based_edit_tool"
           [("command", PyVal.str "view"), ("path", PyVal.str "/proj/f.txt")],
         RespBlock.text "working",
         RespBlock.toolUse "tu2" "str_replace_based_edit_tool"
           [("command", PyVal.str "view"), ("path", PyVal.str "/proj/a.txt")]]) = true :=
  ⟨((claim_C4 ["/proj"] [] Option.none Option.none fsProj []
        [RespBlock.toolUse "tu1" "str_replace_based_edit_tool"
           [("command", PyVal.str "view"), ("path", PyVal.str "/proj/f.txt")],
         RespBlock.text "working",
         RespBlock.toolUse "tu2" "str_replace_based_edit_tool"
           [("command", PyVal.str "view"), ("path", PyVal.str "/proj/a.txt")]]
        (by decide)).2.2.1).trans (by decide),
   (claim_C4 ["/proj"] [] Option.none Option.none fsProj []
        [RespBlock.toolUse "tu1" "str_replace_based_edit_tool"
           [("command", PyVal.str "view"), ("path", PyVal.str "/proj/f.txt")],
         RespBlock.text "working",
         RespBlock.toolUse "tu2" "str_replace_based_edit_tool"
           [("command", PyVal.str "view"), ("path", PyVal.str "/proj/a.txt")]]
        (by decide)).1⟩

/-- C4 counterexample: a response with two `tool_use` blocks whose first
carries a malformed `view_range` makes the loop body raise instead of
producing the promised assistant/user messages — no user message with two
`tool_result` blocks is ever appended (the enclosing `except Exception`
turns the whole turn into an error). -/
theorem claim_C4_counterexample :
    tool_loop_step ["/proj"] [] Option.none Option.none fsProj []
        [RespBlock.toolUse "tu1" "str_replace_based_edit_tool"
           [("command", PyVal.str "view"), ("path", PyVal.str "/proj/f.txt"),
            ("view_range", PyVal.list [PyVal.str "abc", PyVal.int 2])],
         RespBlock.toolUse "tu2" "str_replace_based_edit_tool"
           [("command", PyVal.str "view"), ("path", PyVal.str "/proj/f.txt")]] =
      Except.error "ValueError" := by
  rfl

/-- A string whose data starts with `'/'` starts with `"/"`. -/
theorem startsWith_slash_of_data {x : String} {t : List Char} (h : x.data = '/' :: t) :
    strStartsWith x "/" = true := by
  unfold strStartsWith
  rw [h, show "/".data = ['/'] by decide]
  simp [List.isPrefixOf]

/-- A string with cons-shaped data is nonempty. -/
theorem ne_empty_of_data {x : String} {c : Char} {t : List Char} (h : x.data = c :: t) :
    x ≠ "" := by
  intro he
  rw [he] at h
  exact absurd h (by simp)

/-- A nonempty prefix shares its first element with the longer list. -/
theorem head_of_prefix {α : Type} {l m : List α} {a : α} (h : l <+: a :: m)
    (hne : l ≠ []) : ∃ l', l = a :: l' := by
  obtain ⟨t, ht⟩ := h
  cases l with
  | nil => exact absurd rfl hne
  | cons x l' =>
    injection ht with h1 h2
    exact ⟨l', by rw [h1]⟩

/-- The reversed `dropWhile` of a reversed list is a prefix of the list. -/
theorem reverse_dropWhile_prefix (q : Char → Bool) (l : List Char) :
    (l.reverse.dropWhile q).reverse <+: l := by
  have hsuf : l.reverse.dropWhile q <:+ l.reverse := List.dropWhile_suffix q
  have := List.reverse_prefix.mpr hsuf
  rwa [List.reverse_reverse] at this

/-- If some element of the list fails the predicate, `dropWhile` is
nonempty. -/
theorem dropWhile_ne_nil_of_mem {q : Char → Bool} {l : List Char} {c : Char}
    (hc : c ∈ l) (hq : q c = false) : l.dropWhile q ≠ [] := by
  intro h
  have := List.dropWhile_eq_nil_iff.mp h c hc
  rw [hq] at this
  exact absurd this (by simp)

/-- Stripping whitespace preserves a leading slash (and leaves the string
nonempty). -/
theorem pyStrip_abs {p : String} (h : strStartsWith p "/" = true) :
    ∃ t, (pyStrip p).data = '/' :: t := by
  unfold strStartsWith at h
  rw [List.isPrefixOf_iff_prefix] at h
  obtain ⟨t0, ht0⟩ := h
  have hdata : p.data = '/' :: t0 := by
    have : "/".data = ['/'] := rfl
    rw [this] at ht0
    exact ht0.symm
  unfold pyStrip
  rw [hdata]
  have hdrop : List.dropWhile pyIsSpace ('/' :: t0) = '/' :: t0 := by
    rw [List.dropWhile_cons_of_neg]
    simp [pyIsSpace]
  rw [hdrop]
  have hne : ('/' :: t0).reverse.dropWhile pyIsSpace ≠ [] := by
    refine dropWhile_ne_nil_of_mem (c := '/') ?_ (by decide)
    simp
  have hpre := reverse_dropWhile_prefix pyIsSpace ('/' :: t0)
  obtain ⟨l', hl'⟩ := head_of_prefix hpre (by
    intro hrev
    exact hne (by simpa using congrArg List.reverse hrev))
  refine ⟨l', ?_⟩
  show (List.dropWhile pyIsSpace ('/' :: t0).reverse).reverse = '/' :: l'
  exact hl'

/-- `normpath` of an absolute path is absolute. -/
theorem pyNormpath_abs {s : String} {t : List Char} (hdata : s.data = '/' :: t) :
    ∃ u, (pyNormpath s).data = '/' :: u := by
  have hs : s ≠ "" := ne_empty_of_data hdata
  have hs1 : strStartsWith s "/" = true := startsWith_slash_of_data hdata
  unfold pyNormpath
  rw [if_neg hs]
  dsimp only
  by_cases h2 : (strStartsWith s "//" && !strStartsWith s "///") = true
  · rw [if_pos h2]
    have hres : (String.mk (List.replicate 2 '/') ++
        joinWithSlash (normpathFold (2 ≠ 0) ((splitSlash s.data).map String.mk) [])).data =
        '/' :: '/' :: (joinWithSlash (normpathFold (2 ≠ 0)
          ((splitSlash s.data).map String.mk) [])).data := rfl
    rw [if_neg (ne_empty_of_data hres)]
    exact ⟨_, hres⟩
  · rw [if_neg h2, if_pos hs1]
    have hres : (String.mk (List.replicate 1 '/') ++
        joinWithSlash (normpathFold (1 ≠ 0) ((splitSlash s.data).map String.mk) [])).data =
        '/' :: (joinWithSlash (normpathFold (1 ≠ 0)
          ((splitSlash s.data).map String.mk) [])).data := rfl
    rw [if_neg (ne_empty_of_data hres)]
    exact ⟨_, hres⟩

/-- `dirname` of an absolute path is neither empty nor `"."` (the
bare-filename hint branch of `resolve_path` is therefore skipped). -/
theorem pyDirname_abs {s : String} {t : List Char} (hdata : s.data = '/' :: t) :
    pyDirname s ≠ "" ∧ pyDirname s ≠ "." := by
  unfold pyDirname
  rw [hdata]
  have hne : ('/' :: t).reverse.dropWhile (fun c => c ≠ '/') ≠ [] := by
    refine dropWhile_ne_nil_of_mem (c := '/') ?_ (by simp)
    simp
  have hpre := reverse_dropWhile_prefix (fun c => c ≠ '/') ('/' :: t)
  obtain ⟨l', hl'⟩ := head_of_prefix hpre (by
    intro hrev
    exact hne (by simpa using congrArg List.reverse hrev))
  rw [hl']
  have hnil : ('/' :: l').isEmpty = false := rfl
  rw [if_neg (by simp [hnil])]
  by_cases hall : ('/' :: l').all (fun c => c = '/') = true
  · rw [if_pos hall]
    constructor
    · exact ne_empty_of_data rfl
    · intro hdot
      have := congrArg String.data hdot
      rw [show (".").data = ['.'] by decide] at this
      simp at this
  · rw [if_neg hall]
    have hne2 : ('/' :: l').reverse.dropWhile (fun c => c = '/') ≠ [] := by
      have hx : ∃ c ∈ '/' :: l', ¬c = '/' := by
        simpa [List.all_eq_true] using hall
      obtain ⟨c, hc1, hc2⟩ := hx
      refine dropWhile_ne_nil_of_mem (q := fun c => c = '/') (c := c)
        (by
          have hmm := hc1
          simp at hmm ⊢
          exact hmm.symm)
        (by simpa using hc2)
    have hpre2 := reverse_dropWhile_prefix (fun c => c = '/') ('/' :: l')
    obtain ⟨l'', hl''⟩ := head_of_prefix hpre2 (by
      intro hrev
      exact hne2 (by simpa using congrArg List.reverse hrev))
    rw [hl'']
    constructor
    · exact ne_empty_of_data rfl
    · intro hdot
      have := congrArg String.data hdot
      rw [show (".").data = ['.'] by decide] at this
      simp at this

/-- `lcpComps` is a prefix of its first argument. -/
theorem lcpComps_prefix_left (a b : List String) : lcpComps a b <+: a := by
  induction a generalizing b with
  | nil => cases b <;> simp [lcpComps]
  | cons x xs ih =>
    cases b with
    | nil => simp [lcpComps]
    | cons y ys =>
      rw [lcpComps]
      by_cases h : x = y
      · rw [if_pos h]
        subst h
        exact List.cons_prefix_cons.mpr ⟨rfl, ih ys⟩
      · rw [if_neg h]
        exact List.nil_prefix

/-- `lcpComps a b = a` exactly when `a` is a prefix of `b`. -/
theorem lcpComps_eq_left_iff (a b : List String) : lcpComps a b = a ↔ a <+: b := by
  induction a generalizing b with
  | nil => simp [lcpComps]
  | cons x xs ih =>
    cases b with
    | nil =>
      simp [lcpComps]
    | cons y ys =>
      rw [lcpComps]
      by_cases h : x = y
      · subst h
        rw [if_pos rfl]
        constructor
        · intro he
          injection he with h1 h2
          exact (List.cons_prefix_cons).mpr ⟨rfl, (ih ys).mp h2⟩
        · intro hp
          obtain ⟨-, hp2⟩ := (List.cons_prefix_cons).mp hp
          rw [(ih ys).mpr hp2]
      · rw [if_neg h]
        constructor
        · intro he
          exact absurd he.symm (by simp)
        · intro hp
          obtain ⟨h1, -⟩ := (List.cons_prefix_cons).mp hp
          exact absurd h1 h

/-- Appending a nonempty extra piece strictly lengthens the joined string. -/
theorem joinWithSlash_length_lt (l : List String) (x : String) (rest : List String)
    (hx : x ≠ "") :
    (joinWithSlash l).data.length < (joinWithSlash (l ++ x :: rest)).data.length := by
  induction l with
  | nil =>
    have hxlen : 0 < x.data.length := by
      cases hd : x.data with
      | nil => exact absurd (by cases x with | mk d => cases hd; rfl) hx
      | cons c t => simp [hd]
    cases rest with
    | nil => simpa [joinWithSlash] using hxlen
    | cons y ys =>
      show ("" : String).data.length < (x ++ "/" ++ joinWithSlash (y :: ys)).data.length
      have : (x ++ "/" ++ joinWithSlash (y :: ys)).data =
          x.data ++ "/".data ++ (joinWithSlash (y :: ys)).data := rfl
      rw [this]
      simp
  | cons a l' ih =>
    cases l' with
    | nil =>
      show a.data.length < (a ++ "/" ++ joinWithSlash (x :: rest)).data.length
      have : (a ++ "/" ++ joinWithSlash (x :: rest)).data =
          a.data ++ "/".data ++ (joinWithSlash (x :: rest)).data := rfl
      rw [this, show "/".data = ['/'] by decide]
      simp
    | cons b l'' =>
      show (a ++ "/" ++ joinWithSlash (b :: l'')).data.length <
        (a ++ "/" ++ joinWithSlash ((b :: l'') ++ x :: rest)).data.length
      have h1 : (a ++ "/" ++ joinWithSlash (b :: l'')).data =
          a.data ++ "/".data ++ (joinWithSlash (b :: l'')).data := rfl
      have h2 : (a ++ "/" ++ joinWithSlash ((b :: l'') ++ x :: rest)).data =
          a.data ++ "/".data ++ (joinWithSlash ((b :: l'') ++ x :: rest)).data := rfl
      rw [h1, h2]
      simp only [List.length_append]
      have := ih
      omega

/-- A prefix with the same slash-join (over nonempty pieces) is the whole
list. -/
theorem prefix_join_eq {l m : List String} (hpre : l <+: m) (hm : ∀ x ∈ m, x ≠ "")
    (hj : joinWithSlash l = joinWithSlash m) : l = m := by
  obtain ⟨t, rfl⟩ := hpre
  cases t with
  | nil => simp
  | cons x rest =>
    have hx : x ≠ "" := hm x (by simp)
    have hlt := joinWithSlash_length_lt l x rest hx
    rw [hj] at hlt
    exact absurd hlt (lt_irrefl _)

/-- Filtered path components are nonempty strings. -/
theorem filteredComps_ne_empty (p : String) : ∀ x ∈ filteredComps p, x ≠ "" := by
  intro x hx
  unfold filteredComps at hx
  have := List.of_mem_filter hx
  simp only [Bool.and_eq_true] at this
  simpa using this.1

/-- A canonical absolute root starts with `"/"`. -/
theorem canonical_startsWith {r : String} (h : canonicalAbsRoot r) :
    strStartsWith r "/" = true := by
  rw [h]
  exact startsWith_slash_of_data rfl

/-- `commonpath` of two absolute paths: a single slash plus the joined
longest common filtered-component prefix. -/
theorem pyCommonpath2_abs {r nrm : String} (hr : strStartsWith r "/" = true)
    (hn : strStartsWith nrm "/" = true) :
    pyCommonpath2 r nrm =
      some ("/" ++ joinWithSlash (lcpComps (filteredComps r) (filteredComps nrm))) := by
  unfold pyCommonpath2
  rw [hr, hn]
  simp

/-- Cancellation of the leading slash. -/
theorem slash_append_inj {a b : String} (h : "/" ++ a = "/" ++ b) : a = b := by
  cases a with
  | mk la =>
    cases b with
    | mk lb =>
      have hd := congrArg String.data h
      have hd' : '/' :: la = '/' :: lb := hd
      injection hd' with h1 h2
      rw [h2]

/-- For a canonical root and an absolute path, the source's
`commonpath == root` containment test coincides with the spec's
directory-component ancestor relation. -/
theorem commonEq_iff_ancestor {r nrm : String} (hc : canonicalAbsRoot r)
    (hn : strStartsWith nrm "/" = true) :
    ("/" ++ joinWithSlash (lcpComps (filteredComps r) (filteredComps nrm)) = r ↔
      spec_root_is_ancestor r nrm = true) := by
  unfold spec_root_is_ancestor
  rw [canonical_startsWith hc, hn]
  simp only [Bool.true_and, Bool.and_eq_true, List.isPrefixOf_iff_prefix]
  constructor
  · intro h
    have hjoin : joinWithSlash (lcpComps (filteredComps r) (filteredComps nrm)) =
        joinWithSlash (filteredComps r) := by
      apply slash_append_inj
      rw [h]
      exact hc
    have hlcp : lcpComps (filteredComps r) (filteredComps nrm) = filteredComps r :=
      prefix_join_eq (lcpComps_prefix_left _ _) (filteredComps_ne_empty r) hjoin
    exact (lcpComps_eq_left_iff _ _).mp hlcp
  · intro h
    rw [(lcpComps_eq_left_iff _ _).mpr h]
    exact hc.symm

/-- The absolute-path root loop of `resolve_path`, for canonical roots:
acceptance is exactly "some root is a component-wise ancestor", and total
failure yields the outside-roots error. -/
theorem resolveAbsLoop_spec (nrm : String) (hn : strStartsWith nrm "/" = true) :
    ∀ roots, (∀ r ∈ roots, canonicalAbsRoot r) →
      ((∃ r ∈ roots, spec_root_is_ancestor r nrm = true) →
        resolveAbsLoop nrm roots = Except.ok nrm) ∧
      ((∀ r ∈ roots, spec_root_is_ancestor r nrm = false) →
        resolveAbsLoop nrm roots = Except.error "Error: Path is outside allowed project roots.")
  | [], _ => by
    constructor
    · intro h
      simp at h
    · intro _
      rfl
  | root :: rest, hcan => by
    have hcr : canonicalAbsRoot root := hcan root (by simp)
    have hkey := pyCommonpath2_abs (canonical_startsWith hcr) hn
    have ih := resolveAbsLoop_spec nrm hn rest (fun r hr => hcan r (by simp [hr]))
    constructor
    · intro h
      rw [resolveAbsLoop, hkey]
      dsimp only
      by_cases hanc : spec_root_is_ancestor root nrm = true
      · rw [if_pos ((commonEq_iff_ancestor hcr hn).mpr hanc)]
      · rw [if_neg (fun hc => hanc ((commonEq_iff_ancestor hcr hn).mp hc))]
        refine ih.1 ?_
        rcases h with ⟨r, hr, hranc⟩
        rcases List.mem_cons.mp hr with rfl | hmem
        · exact absurd hranc hanc
        · exact ⟨r, hmem, hranc⟩
    · intro h
      rw [resolveAbsLoop, hkey]
      dsimp only
      have hanc : spec_root_is_ancestor root nrm = false := h root (by simp)
      rw [if_neg (fun hc => by
        rw [(commonEq_iff_ancestor hcr hn).mp hc] at hanc
        exact absurd hanc (by simp))]
      exact ih.2 (fun r hr => h r (by simp [hr]))

/-- For absolute input that passes the traversal filter, `resolve_path`
reduces to the root-containment loop over the normalized path. -/
theorem resolve_path_abs (fs : PyFS) (ctx : List (String × CtxFileInfo))
    (w : Option (List (Option String))) (p : String) (roots : List String)
    (habs : strStartsWith p "/" = true)
    (htrav : (strStartsWith (pyNormpath (pyStrip p)) ".." ||
              strContains (pyNormpath (pyStrip p)) "/.." ||
              strContains (pyNormpath (pyStrip p)) "\\..") = false) :
    resolve_path fs (PyVal.str p) roots ctx w =
      resolveAbsLoop (pyNormpath (pyStrip p)) roots := by
  obtain ⟨t, hstrip⟩ := pyStrip_abs habs
  have hsne : pyStrip p ≠ "" := ne_empty_of_data hstrip
  have hp : p ≠ "" := by
    intro h
    rw [h] at habs
    exact absurd habs (by decide)
  obtain ⟨u, hnorm⟩ := pyNormpath_abs hstrip
  have hnabs : strStartsWith (pyNormpath (pyStrip p)) "/" = true :=
    startsWith_slash_of_data hnorm
  have hdir := pyDirname_abs hnorm
  have hhints : resolveHints fs (pyNormpath (pyStrip p)) roots ctx w = Option.none := by
    unfold resolveHints
    rw [if_neg (by simp [hdir.1, hdir.2])]
  unfold resolve_path
  dsimp only
  rw [if_neg hp, if_neg hsne, if_neg (by simp [htrav]), hhints]
  rw [if_pos hnabs]

/-- C9 as amended: for every absolute input path whose normalized form does
not trip the traversal filter, and every list of canonical absolute roots,
`resolve_path` accepts (returning the normalized path) **iff** some allowed
root is a directory-component ancestor of the normalized path; when no root
is, the result is the `PathOutsideRoots` error.  In particular a sibling
directory sharing a string prefix with a root (`/home/user2` against
`/home/user`) is rejected. -/
theorem claim_C9 (fs : PyFS) (ctx : List (String × CtxFileInfo))
    (w : Option (List (Option String))) (p : String) (roots : List String)
    (habs : strStartsWith p "/" = true)
    (htrav : (strStartsWith (pyNormpath (pyStrip p)) ".." ||
              strContains (pyNormpath (pyStrip p)) "/.." ||
              strContains (pyNormpath (pyStrip p)) "\\..") = false)
    (hroots : ∀ r ∈ roots, canonicalAbsRoot r) :
    (resolve_path fs (PyVal.str p) roots ctx w = Except.ok (pyNormpath (pyStrip p)) ↔
      ∃ r ∈ roots, spec_root_is_ancestor r (pyNormpath (pyStrip p)) = true) ∧
    ((∀ r ∈ roots, spec_root_is_ancestor r (pyNormpath (pyStrip p)) = false) →
      resolve_path fs (PyVal.str p) roots ctx w =
        Except.error "Error: Path is outside allowed project roots.") := by
  have hred := resolve_path_abs fs ctx w p roots habs htrav
  obtain ⟨t, hstrip⟩ := pyStrip_abs habs
  obtain ⟨u, hnorm⟩ := pyNormpath_abs hstrip
  have hnabs : strStartsWith (pyNormpath (pyStrip p)) "/" = true :=
    startsWith_slash_of_data hnorm
  have hspec := resolveAbsLoop_spec (pyNormpath (pyStrip p)) hnabs roots hroots
  constructor
  · constructor
    · intro hok
      by_contra hno
      have hall : ∀ r ∈ roots,
          spec_root_is_ancestor r (pyNormpath (pyStrip p)) = false := by
        intro r hr
        cases hb : spec_root_is_ancestor r (pyNormpath (pyStrip p)) with
        | true => exact absurd ⟨r, hr, hb⟩ hno
        | false => rfl
      rw [hred, hspec.2 hall] at hok
      exact absurd hok (by simp)
    · intro hex
      rw [hred]
      exact hspec.1 hex
  · intro hall
    rw [hred]
    exact hspec.2 hall

/-- C9 witness: the theorem applied to the spec's sibling-directory example
— `/home/user2/secret.txt` against root `/home/user` is rejected with the
outside-roots error. -/
theorem claim_C9_witness :
    resolve_path fsProj (PyVal.str "/home/user2/secret.txt") ["/home/user"] []
        Option.none = Except.error "Error: Path is outside allowed project roots." :=
  (claim_C9 fsProj [] Option.none "/home/user2/secret.txt" ["/home/user"] (by decide)
      (by decide)
      (by
        intro r hr
        simp only [List.mem_singleton] at hr
        subst hr
        unfold canonicalAbsRoot
        decide)).2
    (by
      intro r hr
      simp only [List.mem_singleton] at hr
      subst hr
      decide)

/-- C9 counterexample: the acceptance condition is **not** equivalent to
ancestor containment as claimed — `/proj` is a directory-component ancestor
of `/proj/..cfg` (whose segment `..cfg` is not a traversal), yet
`resolve_path` rejects it, because the traversal filter is the substring
test `'/..' in normalized` and fires on `/..cfg`. -/
theorem claim_C9_counterexample :
    spec_root_is_ancestor "/proj" "/proj/..cfg" = true ∧
    pyNormpath (pyStrip "/proj/..cfg") = "/proj/..cfg" ∧
    resolve_path fsProj (PyVal.str "/proj/..cfg") ["/proj"] [] Option.none =
      Except.error "Error: Path traversal is not allowed." := by
  refine ⟨by decide, by rfl, by rfl⟩

end Claudette

